import Mathlib

/-!
Verification of the planar 2D collision core.

The development shallowly embeds three source modules:

* `Planar.Sat` — the SAT narrow-phase resolver
  (src/demos/collision/src/algorithms/Collision.js).  IEEE doubles are
  modelled by exact rationals; the one square root the circle/circle test
  takes (`Math.sqrt(distanceSq)`) is passed in as an explicit argument and
  constrained by hypotheses `0 ≤ dist ∧ dist * dist = distanceSq`.
* `Planar.Sweep` — the swept-AABB module
  (src/demos/intersection/src/Collision.js, the `window.Collision`
  variant defining `Collision.AABB`).  Because the slab method divides by
  zero on purpose, numbers are modelled by rationals extended with the
  IEEE infinities and NaN.
* `Planar.Spatial` — the grid hash (SpatialHash.js) and the quadtree.
  Coordinates are modelled as integers, on which the JavaScript shift and
  rounding operators are exact.
-/

attribute [local semireducible] Rat.add Rat.mul Rat.sub Rat.inv

namespace Planar

namespace Sat

/-- 2D vector with exact rational coordinates, modelling `CollisionVector`. -/
structure Vec where
  x : ℚ
  y : ℚ
deriving DecidableEq

/-- `Vector.dot` from the source. -/
def dot (a b : Vec) : ℚ := a.x * b.x + a.y * b.y

/-- `Vector.len2` from the source. -/
def len2 (v : Vec) : ℚ := dot v v

/-- Vector subtraction (`Vector.sub` applied to a fresh copy, as the source
does with its scratch vectors). -/
def vsub (a b : Vec) : Vec := ⟨a.x - b.x, a.y - b.y⟩

/-- Vector addition (`Vector.add`). -/
def vadd (a b : Vec) : Vec := ⟨a.x + b.x, a.y + b.y⟩

/-- `Vector.scale` with a single factor. -/
def vscale (v : Vec) (k : ℚ) : Vec := ⟨v.x * k, v.y * k⟩

/-- `Number.MAX_VALUE`, the initial bound used by `flattenPointsOn` (the
exponentiation is taken over ℕ so that concrete instances evaluate fast). -/
def MAXV : ℚ := ((2 ^ 1024 - 2 ^ 971 : ℕ) : ℚ)

/-- `flattenPointsOn` from the source: project `points` on the axis and return
the (min, max) range, starting from `(Number.MAX_VALUE, -Number.MAX_VALUE)`. -/
def flattenPointsOn (points : List Vec) (normal : Vec) : ℚ × ℚ :=
  points.foldl
    (fun result p =>
      (min result.1 (dot p normal), max result.2 (dot p normal)))
    (MAXV, -MAXV)

/-- `isSeparatingAxis` from the source, without the optional response (the
returned boolean does not depend on the response bookkeeping). -/
def isSeparatingAxis (aPos bPos : Vec) (aPoints bPoints : List Vec)
    (axis : Vec) : Bool :=
  let offsetV := vsub bPos aPos
  let projectedOffset := dot offsetV axis
  let rangeA := flattenPointsOn aPoints axis
  let rangeB0 := flattenPointsOn bPoints axis
  let rangeB := (rangeB0.1 + projectedOffset, rangeB0.2 + projectedOffset)
  decide (rangeA.1 > rangeB.2 ∨ rangeB.1 > rangeA.2)

/-- A polygon as the SAT routines consume it: `position` plus the derived,
in-sync `calcPoints` and `normals` arrays (the data-model invariant says the
derived arrays are recomputed whenever points/angle/offset change; the tests
read only these derived fields). -/
structure Polygon where
  position : Vec
  calcPoints : List Vec
  normals : List Vec
deriving DecidableEq

/-- `testPolygonPolygon` from the source: false as soon as one edge normal of
either polygon is a separating axis, true otherwise. -/
def testPolygonPolygon (a b : Polygon) : Bool :=
  (a.normals.all (fun n =>
    !isSeparatingAxis a.position b.position a.calcPoints b.calcPoints n)) &&
  (b.normals.all (fun n =>
    !isSeparatingAxis a.position b.position a.calcPoints b.calcPoints n))

/-- Spec-side notion (the "brute-force projection" check): an axis separates
the polygons when every projected vertex of one lies strictly on one side of
every projected vertex of the other, after offsetting B by the projection of
the position difference.  For nonempty vertex sets this is exactly
disjointness of the two projected intervals. -/
def specSeparates (a b : Polygon) (axis : Vec) : Prop :=
  (∀ p ∈ a.calcPoints, ∀ q ∈ b.calcPoints,
    dot q axis + dot (vsub b.position a.position) axis < dot p axis) ∨
  (∀ p ∈ a.calcPoints, ∀ q ∈ b.calcPoints,
    dot p axis < dot q axis + dot (vsub b.position a.position) axis)

instance (a b : Polygon) (axis : Vec) : Decidable (specSeparates a b axis) := by
  unfold specSeparates
  infer_instance

/-- All projections of a polygon's vertices on the axis stay within the float
range that the fold in `flattenPointsOn` starts from. -/
def ProjBounded (a : Polygon) (axis : Vec) : Prop :=
  ∀ p ∈ a.calcPoints, |dot p axis| ≤ MAXV

instance (a : Polygon) (axis : Vec) : Decidable (ProjBounded a axis) := by
  unfold ProjBounded
  infer_instance

section FoldFacts

theorem foldl_min_le_init (l : List ℚ) (a : ℚ) : l.foldl min a ≤ a := by
  induction l generalizing a with
  | nil => simp
  | cons h t ih => exact le_trans (ih (min a h)) (min_le_left _ _)

theorem init_le_foldl_max (l : List ℚ) (a : ℚ) : a ≤ l.foldl max a := by
  induction l generalizing a with
  | nil => simp
  | cons h t ih => exact le_trans (le_max_left _ _) (ih (max a h))

theorem foldl_min_le {l : List ℚ} {x : ℚ} (a : ℚ) (hx : x ∈ l) :
    l.foldl min a ≤ x := by
  induction l generalizing a with
  | nil => cases hx
  | cons h t ih =>
    rcases List.mem_cons.mp hx with rfl | hx
    · exact le_trans (foldl_min_le_init t (min a x)) (min_le_right _ _)
    · exact ih _ hx

theorem le_foldl_max {l : List ℚ} {x : ℚ} (a : ℚ) (hx : x ∈ l) :
    x ≤ l.foldl max a := by
  induction l generalizing a with
  | nil => cases hx
  | cons h t ih =>
    rcases List.mem_cons.mp hx with rfl | hx
    · exact le_trans (le_max_right _ _) (init_le_foldl_max t (max a x))
    · exact ih _ hx

theorem foldl_min_mem (l : List ℚ) (a : ℚ) : l.foldl min a ∈ a :: l := by
  induction l generalizing a with
  | nil => simp
  | cons h t ih =>
    rcases List.mem_cons.mp (ih (min a h)) with he | ht
    · rw [List.foldl_cons, he]
      rcases min_choice a h with h1 | h1 <;> simp [h1]
    · exact List.mem_cons_of_mem _ (List.mem_cons_of_mem _ ht)

theorem foldl_max_mem (l : List ℚ) (a : ℚ) : l.foldl max a ∈ a :: l := by
  induction l generalizing a with
  | nil => simp
  | cons h t ih =>
    rcases List.mem_cons.mp (ih (max a h)) with he | ht
    · rw [List.foldl_cons, he]
      rcases max_choice a h with h1 | h1 <;> simp [h1]
    · exact List.mem_cons_of_mem _ (List.mem_cons_of_mem _ ht)

theorem foldl_min_attained {l : List ℚ} {a : ℚ} (hne : l ≠ [])
    (hb : ∀ x ∈ l, x ≤ a) : l.foldl min a ∈ l := by
  rcases List.mem_cons.mp (foldl_min_mem l a) with he | ht
  · obtain ⟨x, hx⟩ := List.exists_mem_of_ne_nil l hne
    have h1 : l.foldl min a ≤ x := foldl_min_le a hx
    have h2 : x = a := le_antisymm (hb x hx) (he ▸ h1)
    rw [he, ← h2]
    exact hx
  · exact ht

theorem foldl_max_attained {l : List ℚ} {a : ℚ} (hne : l ≠ [])
    (hb : ∀ x ∈ l, a ≤ x) : l.foldl max a ∈ l := by
  rcases List.mem_cons.mp (foldl_max_mem l a) with he | ht
  · obtain ⟨x, hx⟩ := List.exists_mem_of_ne_nil l hne
    have h1 : x ≤ l.foldl max a := le_foldl_max a hx
    have h2 : x = a := le_antisymm (he ▸ h1) (hb x hx)
    rw [he, ← h2]
    exact hx
  · exact ht

theorem flatten_eq (points : List Vec) (axis : Vec) (a b : ℚ) :
    points.foldl
      (fun result p =>
        (min result.1 (dot p axis), max result.2 (dot p axis))) (a, b) =
    ((points.map (fun p => dot p axis)).foldl min a,
     (points.map (fun p => dot p axis)).foldl max b) := by
  induction points generalizing a b with
  | nil => rfl
  | cons h t ih => simpa using ih (min a (dot h axis)) (max b (dot h axis))

end FoldFacts

/-- The per-axis equivalence: the source's fold-based gap test agrees with the
brute-force quantifier form on nonempty, float-bounded vertex sets. -/
theorem isSeparatingAxis_iff (a b : Polygon) (axis : Vec)
    (ha : a.calcPoints ≠ []) (hb : b.calcPoints ≠ [])
    (hba : ProjBounded a axis) (hbb : ProjBounded b axis) :
    isSeparatingAxis a.position b.position a.calcPoints b.calcPoints axis
      = true ↔ specSeparates a b axis := by
  have hane : a.calcPoints.map (fun p => dot p axis) ≠ [] := by
    simpa using ha
  have hbne : b.calcPoints.map (fun p => dot p axis) ≠ [] := by
    simpa using hb
  unfold isSeparatingAxis flattenPointsOn specSeparates
  rw [flatten_eq, flatten_eq]
  simp only [decide_eq_true_eq]
  set off := dot (vsub b.position a.position) axis with hoff
  constructor
  · rintro (hgap | hgap)
    · left
      intro p hp q hq
      have h1 : (a.calcPoints.map (fun p => dot p axis)).foldl min MAXV ≤
          dot p axis := foldl_min_le _ (List.mem_map_of_mem _ hp)
      have h2 : dot q axis ≤
          (b.calcPoints.map (fun p => dot p axis)).foldl max (-MAXV) :=
        le_foldl_max _ (List.mem_map_of_mem _ hq)
      linarith
    · right
      intro p hp q hq
      have h1 : dot p axis ≤
          (a.calcPoints.map (fun p => dot p axis)).foldl max (-MAXV) :=
        le_foldl_max _ (List.mem_map_of_mem _ hp)
      have h2 : (b.calcPoints.map (fun p => dot p axis)).foldl min MAXV ≤
          dot q axis := foldl_min_le _ (List.mem_map_of_mem _ hq)
      linarith
  · rintro (hsep | hsep)
    · left
      obtain ⟨p0, hp0, hp0e⟩ :
          ∃ p0 ∈ a.calcPoints,
            (a.calcPoints.map (fun p => dot p axis)).foldl min MAXV
              = dot p0 axis := by
        have := foldl_min_attained hane (fun x hx => by
          obtain ⟨p, hp, rfl⟩ := List.mem_map.mp hx
          exact le_trans (le_abs_self _) (hba p hp))
        obtain ⟨p, hp, he⟩ := List.mem_map.mp this
        exact ⟨p, hp, he.symm⟩
      obtain ⟨q0, hq0, hq0e⟩ :
          ∃ q0 ∈ b.calcPoints,
            (b.calcPoints.map (fun p => dot p axis)).foldl max (-MAXV)
              = dot q0 axis := by
        have := foldl_max_attained hbne (fun x hx => by
          obtain ⟨q, hq, rfl⟩ := List.mem_map.mp hx
          exact le_trans (neg_le_neg (hbb q hq)) (neg_abs_le _))
        obtain ⟨q, hq, he⟩ := List.mem_map.mp this
        exact ⟨q, hq, he.symm⟩
      rw [hp0e, hq0e]
      exact hsep p0 hp0 q0 hq0
    · right
      obtain ⟨p0, hp0, hp0e⟩ :
          ∃ p0 ∈ a.calcPoints,
            (a.calcPoints.map (fun p => dot p axis)).foldl max (-MAXV)
              = dot p0 axis := by
        have := foldl_max_attained hane (fun x hx => by
          obtain ⟨p, hp, rfl⟩ := List.mem_map.mp hx
          exact le_trans (neg_le_neg (hba p hp)) (neg_abs_le _))
        obtain ⟨p, hp, he⟩ := List.mem_map.mp this
        exact ⟨p, hp, he.symm⟩
      obtain ⟨q0, hq0, hq0e⟩ :
          ∃ q0 ∈ b.calcPoints,
            (b.calcPoints.map (fun p => dot p axis)).foldl min MAXV
              = dot q0 axis := by
        have := foldl_min_attained hbne (fun x hx => by
          obtain ⟨q, hq, rfl⟩ := List.mem_map.mp hx
          exact le_trans (le_abs_self _) (hbb q hq))
        obtain ⟨q, hq, he⟩ := List.mem_map.mp this
        exact ⟨q, hq, he.symm⟩
      rw [hp0e, hq0e]
      exact hsep p0 hp0 q0 hq0

/-- `CollisionCircle`: a position (the center) and a radius. -/
structure Circle where
  position : Vec
  radius : ℚ
deriving DecidableEq

/-- The response fields the tests write (`a`/`b` references are omitted; the
shapes are already in scope in every statement). -/
structure Response where
  overlap : ℚ
  overlapN : Vec
  overlapV : Vec
  aInB : Bool
  bInA : Bool
deriving DecidableEq

/-- A fresh (or cleared) response: `overlap = Number.MAX_VALUE`, containment
flags true, vectors zero. -/
def Response.init : Response := ⟨MAXV, ⟨0, 0⟩, ⟨0, 0⟩, true, true⟩

/-- `Vector.normalize`, with the square root `d = Math.sqrt (len2 v)` of the
length computation passed in explicitly (theorems constrain it). -/
def normalize (v : Vec) (d : ℚ) : Vec :=
  if 0 < d then ⟨v.x / d, v.y / d⟩ else v

/-- `testCircleCircle` from the source.  `dist` stands for the value of
`Math.sqrt(distanceSq)`; every theorem about this function hypothesises
`0 ≤ dist` and `dist * dist = distanceSq`.  The same value is what
`Vector.normalize diff` computes internally as the length of `diff`. -/
def testCircleCircle (a b : Circle) (response : Response) (dist : ℚ) :
    Bool × Response :=
  let diff : Vec := ⟨b.position.x - a.position.x, b.position.y - a.position.y⟩
  let totalRadius := a.radius + b.radius
  let totalRadiusSq := totalRadius * totalRadius
  let distanceSq := len2 diff
  if distanceSq > totalRadiusSq then (false, response)
  else
    let overlap := totalRadius - dist
    let diffN := normalize diff dist
    (true,
      { overlap := overlap
        overlapN := diffN
        overlapV := ⟨diffN.x * overlap, diffN.y * overlap⟩
        aInB := decide (a.radius ≤ b.radius ∧ dist ≤ b.radius - a.radius)
        bInA := decide (b.radius ≤ a.radius ∧ dist ≤ a.radius - b.radius) })

/-- `pointInCircle` from the source (boundary inclusive). -/
def pointInCircle (point : Vec) (circle : Circle) : Bool :=
  let diff : Vec := ⟨point.x - circle.position.x, point.y - circle.position.y⟩
  let radiusSq := circle.radius * circle.radius
  let distanceSq := len2 diff
  decide (distanceSq ≤ radiusSq)

/-- A duck-typed argument of `Collision.test`, as far as the dispatch inspects
it: a possibly absent `radius` and a possibly absent `points` property.  In
JavaScript a present `radius` of `0` is falsy exactly like an absent one,
while a present `points` array is truthy even when empty. -/
structure JsShape where
  radius : Option ℚ
  points : Option (List Vec)
deriving DecidableEq

/-- Truthiness of `a.radius`. -/
def truthyRadius (s : JsShape) : Bool :=
  match s.radius with
  | some r => decide (r ≠ 0)
  | none => false

/-- The three type tags `Collision.test` can compute. -/
inductive ShapeTag where
  | circle
  | box
  | polygon
deriving DecidableEq

/-- `a.radius ? 'circle' : ( a.points ? 'polygon' : 'box' )`. -/
def shapeTag (s : JsShape) : ShapeTag :=
  if truthyRadius s then .circle
  else if s.points.isSome then .polygon
  else .box

/-- The pairwise test function a branch of `Collision.test` calls. -/
inductive TestFn where
  | fnCircleCircle
  | fnCircleBox
  | fnCirclePolygon
  | fnPolygonCircle
  | fnBoxBox
  | fnPolygonBox
  | fnPolygonPolygon
deriving DecidableEq

/-- The dispatch structure of `Collision.test`: the nested switches, with
`none` modelling the fall-through to
`throw new Error('Invalid shapes, ...')`. -/
def testDispatch (a b : JsShape) : Option TestFn :=
  let aType := shapeTag a
  let bType := shapeTag b
  if aType = .circle then
    if bType = .circle then some .fnCircleCircle
    else if bType = .box then some .fnCircleBox
    else if bType = .polygon then some .fnCirclePolygon
    else none
  else if aType = .box then
    if bType = .circle then some .fnPolygonCircle
    else if bType = .box then some .fnBoxBox
    else if bType = .polygon then some .fnPolygonPolygon
    else none
  else if aType = .polygon then
    if bType = .circle then some .fnPolygonCircle
    else if bType = .box then some .fnPolygonBox
    else if bType = .polygon then some .fnPolygonPolygon
    else none
  else none

end Sat

open Sat in
/-- C1: for every pair of convex polygons with in-sync derived fields
(nonempty vertex lists, all vertex projections within the double range),
`testPolygonPolygon` — the function `test(P, Q, r)` dispatches to for two
polygons, whose boolean result is independent of the response argument —
returns true if and only if no edge normal of either polygon is a separating
axis for the brute-force projections of the two vertex sets, offset by the
projection of the position difference. -/
theorem C1_testPolygonPolygon_iff_no_separating_axis (a b : Polygon)
    (ha : a.calcPoints ≠ []) (hb : b.calcPoints ≠ [])
    (hbnd : ∀ axis ∈ a.normals ++ b.normals,
      ProjBounded a axis ∧ ProjBounded b axis) :
    testPolygonPolygon a b = true ↔
      ∀ axis ∈ a.normals ++ b.normals, ¬ specSeparates a b axis := by
  unfold testPolygonPolygon
  rw [Bool.and_eq_true, List.all_eq_true, List.all_eq_true]
  constructor
  · rintro ⟨hA, hB⟩ axis haxis
    have hbnd2 := hbnd axis haxis
    have hiff := isSeparatingAxis_iff a b axis ha hb hbnd2.1 hbnd2.2
    rcases List.mem_append.mp haxis with hmem | hmem
    · have := hA axis hmem
      simp only [Bool.not_eq_true'] at this
      rw [← hiff, this]
      simp
    · have := hB axis hmem
      simp only [Bool.not_eq_true'] at this
      rw [← hiff, this]
      simp
  · intro hall
    constructor
    · intro axis hmem
      have haxis : axis ∈ a.normals ++ b.normals :=
        List.mem_append.mpr (Or.inl hmem)
      have hbnd2 := hbnd axis haxis
      have hiff := isSeparatingAxis_iff a b axis ha hb hbnd2.1 hbnd2.2
      have := hall axis haxis
      rw [← hiff] at this
      simp only [Bool.not_eq_true] at this ⊢
      simpa using this
    · intro axis hmem
      have haxis : axis ∈ a.normals ++ b.normals :=
        List.mem_append.mpr (Or.inr hmem)
      have hbnd2 := hbnd axis haxis
      have hiff := isSeparatingAxis_iff a b axis ha hb hbnd2.1 hbnd2.2
      have := hall axis haxis
      rw [← hiff] at this
      simp only [Bool.not_eq_true] at this ⊢
      simpa using this

set_option maxRecDepth 8000 in
open Sat in
/-- Witness for C1 at two overlapping axis-aligned unit-side squares with
their derived normals. -/
theorem C1_witness :
    testPolygonPolygon
        ⟨⟨0, 0⟩, [⟨0, 0⟩, ⟨2, 0⟩, ⟨2, 2⟩, ⟨0, 2⟩],
          [⟨0, -1⟩, ⟨1, 0⟩, ⟨0, 1⟩, ⟨-1, 0⟩]⟩
        ⟨⟨1, 1⟩, [⟨0, 0⟩, ⟨2, 0⟩, ⟨2, 2⟩, ⟨0, 2⟩],
          [⟨0, -1⟩, ⟨1, 0⟩, ⟨0, 1⟩, ⟨-1, 0⟩]⟩ = true := by
  have h := C1_testPolygonPolygon_iff_no_separating_axis
    ⟨⟨0, 0⟩, [⟨0, 0⟩, ⟨2, 0⟩, ⟨2, 2⟩, ⟨0, 2⟩],
      [⟨0, -1⟩, ⟨1, 0⟩, ⟨0, 1⟩, ⟨-1, 0⟩]⟩
    ⟨⟨1, 1⟩, [⟨0, 0⟩, ⟨2, 0⟩, ⟨2, 2⟩, ⟨0, 2⟩],
      [⟨0, -1⟩, ⟨1, 0⟩, ⟨0, 1⟩, ⟨-1, 0⟩]⟩
    (by decide) (by decide) (by decide)
  exact h.mpr (by decide)

open Sat in
/-- C3 (amended): `testCircleCircle` is true iff the center distance is at
most the radius sum (boundary inclusive); on a hit the overlap is the radius
sum minus the center distance and `overlapN` is the normalized
center-to-center vector; and `A.center − r.overlapV` (subtraction, not the
claimed addition) is exactly at distance `A.radius + B.radius` from
`B.center`, so the circles are separated to touching.  `dist` carries the
exact value of `Math.sqrt(distanceSq)`. -/
theorem C3_testCircleCircle_amended (a b : Sat.Circle) (r0 : Response)
    (dist : ℚ)
    (hra : 0 ≤ a.radius) (hrb : 0 ≤ b.radius) (hd0 : 0 ≤ dist)
    (hdsq : dist * dist = len2 (vsub b.position a.position)) :
    ((testCircleCircle a b r0 dist).1 = true ↔ dist ≤ a.radius + b.radius) ∧
    ((testCircleCircle a b r0 dist).1 = true →
      (testCircleCircle a b r0 dist).2.overlap = a.radius + b.radius - dist ∧
      (0 < dist → (testCircleCircle a b r0 dist).2.overlapN =
        vscale (vsub b.position a.position) dist⁻¹) ∧
      (0 < dist →
        len2 (vsub b.position
            (vsub a.position (testCircleCircle a b r0 dist).2.overlapV)) =
          (a.radius + b.radius) * (a.radius + b.radius))) := by
  have hdiff : (⟨b.position.x - a.position.x, b.position.y - a.position.y⟩ :
      Vec) = vsub b.position a.position := rfl
  by_cases hgap :
      len2 (vsub b.position a.position) >
        (a.radius + b.radius) * (a.radius + b.radius)
  · have hfalse : (testCircleCircle a b r0 dist).1 = false := by
      simp only [testCircleCircle, hdiff]
      rw [if_pos hgap]
    constructor
    · rw [hfalse]
      simp only [Bool.false_eq_true, false_iff, not_le]
      nlinarith [hdsq, hgap]
    · rw [hfalse]
      intro h
      cases h
  · have htrue : (testCircleCircle a b r0 dist).1 = true := by
      simp only [testCircleCircle, hdiff]
      rw [if_neg hgap]
    have hresp : (testCircleCircle a b r0 dist).2 =
        { overlap := a.radius + b.radius - dist
          overlapN := normalize (vsub b.position a.position) dist
          overlapV :=
            ⟨(normalize (vsub b.position a.position) dist).x *
                (a.radius + b.radius - dist),
             (normalize (vsub b.position a.position) dist).y *
                (a.radius + b.radius - dist)⟩
          aInB := decide (a.radius ≤ b.radius ∧ dist ≤ b.radius - a.radius)
          bInA :=
            decide (b.radius ≤ a.radius ∧ dist ≤ a.radius - b.radius) } := by
      simp only [testCircleCircle, hdiff]
      rw [if_neg hgap]
    push_neg at hgap
    constructor
    · rw [htrue]
      simp only [true_iff]
      nlinarith [hdsq, hgap]
    · intro _
      refine ⟨by rw [hresp], fun hdpos => ?_, fun hdpos => ?_⟩
      · rw [hresp]
        simp only [Sat.normalize, if_pos hdpos, vscale]
        rw [div_eq_mul_inv, div_eq_mul_inv]
      · have hdne : dist ≠ 0 := ne_of_gt hdpos
        rw [hresp]
        simp only [Sat.normalize, if_pos hdpos, len2, dot, vsub] at hdsq ⊢
        field_simp
        nlinarith [hdsq]

open Sat in
/-- C3 counterexample: for the circles of the repository's own test (radius 20
at (0,0) and (30,0), center distance 30), the response has
`overlapV = (10, 0)`, and the circle moved to `A.center + r.overlapV = (10,0)`
still overlaps B — its center distance 20 is strictly below the radius sum 40
and the test still reports a collision — so adding `overlapV` does not
separate the circles. -/
theorem C3_counterexample :
    (testCircleCircle ⟨⟨0, 0⟩, 20⟩ ⟨⟨30, 0⟩, 20⟩ Response.init 30).1 = true ∧
    (testCircleCircle ⟨⟨0, 0⟩, 20⟩ ⟨⟨30, 0⟩, 20⟩ Response.init 30).2.overlapV
      = ⟨10, 0⟩ ∧
    (testCircleCircle ⟨⟨10, 0⟩, 20⟩ ⟨⟨30, 0⟩, 20⟩ Response.init 20).1 = true ∧
    len2 (vsub ⟨30, 0⟩ (vadd ⟨0, 0⟩ ⟨10, 0⟩)) < (20 + 20) * (20 + 20) := by
  decide

/-- Witness for C3 at the circles of the repository's own test. -/
theorem C3_witness :
    (Sat.testCircleCircle ⟨⟨0, 0⟩, 20⟩ ⟨⟨30, 0⟩, 20⟩ Sat.Response.init 30).1
      = true :=
  (C3_testCircleCircle_amended ⟨⟨0, 0⟩, 20⟩ ⟨⟨30, 0⟩, 20⟩ Sat.Response.init 30
    (by decide) (by decide) (by decide) (by decide)).1.mpr (by decide)

/-- Shared helper: the dispatch always selects some pairwise test branch. -/
theorem Sat.testDispatch_isSome (a b : Sat.JsShape) :
    (Sat.testDispatch a b).isSome = true := by
  unfold Sat.testDispatch
  cases hA : Sat.shapeTag a <;> cases hB : Sat.shapeTag b <;> simp [hA, hB]

open Sat in
/-- C9: the trailing invalid-shapes throw of `Collision.test` is unreachable:
the dispatch always reaches one of the pairwise test calls, an argument with
falsy radius (including radius exactly 0) and no points is tagged box, and a
box/box pair is dispatched to the box test function rather than rejected. -/
theorem C9_dispatch_never_throws (a b : JsShape) :
    (testDispatch a b).isSome = true ∧
    (truthyRadius a = false → a.points = none → shapeTag a = ShapeTag.box) ∧
    (shapeTag a = ShapeTag.box → shapeTag b = ShapeTag.box →
      testDispatch a b = some TestFn.fnBoxBox) := by
  refine ⟨testDispatch_isSome a b, ?_, ?_⟩
  · intro h1 h2
    simp [shapeTag, h1, h2]
  · intro h1 h2
    simp [testDispatch, h1, h2]

/-- Witness for C9: a shape with `radius: 0` and no points is tagged box and
a pair of them goes to the box/box test. -/
theorem C9_witness :
    (Sat.testDispatch ⟨some 0, none⟩ ⟨some 0, none⟩).isSome = true ∧
    Sat.shapeTag ⟨some 0, none⟩ = Sat.ShapeTag.box ∧
    Sat.testDispatch ⟨some 0, none⟩ ⟨some 0, none⟩
      = some Sat.TestFn.fnBoxBox :=
  ⟨(C9_dispatch_never_throws ⟨some 0, none⟩ ⟨some 0, none⟩).1,
   (C9_dispatch_never_throws ⟨some 0, none⟩ ⟨some 0, none⟩).2.1 (by decide)
     rfl,
   (C9_dispatch_never_throws ⟨some 0, none⟩ ⟨some 0, none⟩).2.2 (by decide)
     (by decide)⟩

open Sat in
/-- C6 (amended): `Collision.test` never signals the claimed invalid-shapes
error: every argument is tagged circle, box or polygon (falsy radius and no
points give box), so the dispatch always selects a pairwise test branch and
never reaches its throw. -/
theorem C6_test_never_invalid_error (a b : JsShape) :
    testDispatch a b ≠ none := by
  intro h
  have h1 := testDispatch_isSome a b
  rw [h] at h1
  cases h1

/-- Witness for C6 (amended) at two empty (non-shape) objects. -/
theorem C6_witness :
    Sat.testDispatch ⟨none, none⟩ ⟨none, none⟩ ≠ none :=
  C6_test_never_invalid_error ⟨none, none⟩ ⟨none, none⟩

open Sat in
/-- C6 counterexample: for two objects that are none of circle, box or
polygon (no radius, no points, not even width/height), `test` does not fail
with the invalid-shapes error; both are tagged box and dispatched to the
box/box test branch. -/
theorem C6_counterexample :
    Sat.testDispatch ⟨none, none⟩ ⟨none, none⟩
      = some Sat.TestFn.fnBoxBox := by
  decide

namespace Swept

/-- A JavaScript number as the swept-AABB module produces it: an exact
rational standing in for a finite double, one of the two infinities (the
slab method divides by zero on purpose), or NaN (produced by `0 * Infinity`
and propagated).  Only the positive zero is modelled; the module never feeds
a negative zero into `1.0 / delta`. -/
inductive JsNum where
  | fin (q : ℚ)
  | inf
  | ninf
  | nan
deriving DecidableEq

namespace JsNum

/-- IEEE addition. -/
def add : JsNum → JsNum → JsNum
  | nan, _ => nan
  | _, nan => nan
  | fin a, fin b => fin (a + b)
  | fin _, inf => inf
  | fin _, ninf => ninf
  | inf, fin _ => inf
  | inf, inf => inf
  | inf, ninf => nan
  | ninf, fin _ => ninf
  | ninf, inf => nan
  | ninf, ninf => ninf

/-- IEEE subtraction. -/
def sub : JsNum → JsNum → JsNum
  | nan, _ => nan
  | _, nan => nan
  | fin a, fin b => fin (a - b)
  | fin _, inf => ninf
  | fin _, ninf => inf
  | inf, fin _ => inf
  | inf, inf => nan
  | inf, ninf => inf
  | ninf, fin _ => ninf
  | ninf, inf => ninf
  | ninf, ninf => nan

/-- IEEE multiplication (`0 * Infinity = NaN`). -/
def mul : JsNum → JsNum → JsNum
  | nan, _ => nan
  | _, nan => nan
  | fin a, fin b => fin (a * b)
  | fin a, inf => if 0 < a then inf else if a < 0 then ninf else nan
  | fin a, ninf => if 0 < a then ninf else if a < 0 then inf else nan
  | inf, fin b => if 0 < b then inf else if b < 0 then ninf else nan
  | ninf, fin b => if 0 < b then ninf else if b < 0 then inf else nan
  | inf, inf => inf
  | inf, ninf => ninf
  | ninf, inf => ninf
  | ninf, ninf => inf

/-- IEEE negation. -/
def neg : JsNum → JsNum
  | fin a => fin (-a)
  | inf => ninf
  | ninf => inf
  | nan => nan

/-- `1.0 / x`, as the slab method computes its scales (division of the
positive one by a positive zero gives `+Infinity`). -/
def oneDiv : JsNum → JsNum
  | fin a => if a = 0 then inf else fin a⁻¹
  | inf => fin 0
  | ninf => fin 0
  | nan => nan

/-- The JavaScript `<` comparison (false whenever NaN is involved). -/
def lt : JsNum → JsNum → Bool
  | nan, _ => false
  | _, nan => false
  | fin a, fin b => decide (a < b)
  | fin _, inf => true
  | fin _, ninf => false
  | inf, _ => false
  | ninf, ninf => false
  | ninf, _ => true

/-- The JavaScript `<=` comparison (false whenever NaN is involved). -/
def le : JsNum → JsNum → Bool
  | nan, _ => false
  | _, nan => false
  | fin a, fin b => decide (a ≤ b)
  | fin _, inf => true
  | fin _, ninf => false
  | inf, inf => true
  | inf, _ => false
  | ninf, _ => true

/-- `Math.sign`. -/
def sign : JsNum → JsNum
  | fin a => if a < 0 then fin (-1) else if 0 < a then fin 1 else fin 0
  | inf => fin 1
  | ninf => fin (-1)
  | nan => nan

/-- `Math.abs`. -/
def jsAbs : JsNum → JsNum
  | fin a => fin |a|
  | nan => nan
  | inf => inf
  | ninf => inf

/-- `Math.min` (NaN propagating). -/
def jsMin (a b : JsNum) : JsNum :=
  if a = nan ∨ b = nan then nan else if lt a b then a else b

/-- `Math.max` (NaN propagating). -/
def jsMax (a b : JsNum) : JsNum :=
  if a = nan ∨ b = nan then nan else if lt a b then b else a

/-- `Math.sqrt`, driven by an abstract nonnegative square root `sqrtFn` on
the finite values (only reached under a positivity guard). -/
def jsSqrt (sqrtFn : ℚ → ℚ) : JsNum → JsNum
  | fin a => fin (sqrtFn a)
  | inf => inf
  | ninf => nan
  | nan => nan

/-- `Number.EPSILON`, two to the power minus fifty-two. -/
def EPSILON : JsNum := fin (((2 ^ 52 : ℕ) : ℚ))⁻¹

end JsNum

open JsNum

/-- A 2D vector of JavaScript numbers. -/
structure JVec where
  x : JsNum
  y : JsNum
deriving DecidableEq

/-- The zero vector the `Hit` and `Sweep` constructors start from. -/
def JVec.zero : JVec := ⟨fin 0, fin 0⟩

/-- `CollisionAABB`: a center position and half extents. -/
structure AABB where
  position : JVec
  half : JVec
deriving DecidableEq

/-- `Collision.Hit`.  The constructor leaves `time` unset; an unset
JavaScript number behaves as NaN in arithmetic, which is how it is
modelled. -/
structure Hit where
  collider : AABB
  position : JVec
  delta : JVec
  normal : JVec
  time : JsNum
deriving DecidableEq

/-- `new Collision.Hit(collider)`. -/
def Hit.init (collider : AABB) : Hit :=
  ⟨collider, JVec.zero, JVec.zero, JVec.zero, nan⟩

/-- `Collision.Sweep`. -/
structure Sweep where
  hit : Option Hit
  position : JVec
  time : JsNum
deriving DecidableEq

/-- `new Collision.Sweep()`. -/
def Sweep.init : Sweep := ⟨none, JVec.zero, fin 1⟩

/-- `Collision.AABB.intersectPoint`. -/
def intersectPoint (aabb : AABB) (point : JVec) : Option Hit :=
  let dx := sub point.x aabb.position.x
  let px := sub aabb.half.x (jsAbs dx)
  if le px (fin 0) then none
  else
    let dy := sub point.y aabb.position.y
    let py := sub aabb.half.y (jsAbs dy)
    if le py (fin 0) then none
    else
      let hit := Hit.init aabb
      if lt px py then
        let sx := sign dx
        some { hit with
          delta := ⟨mul px sx, hit.delta.y⟩
          normal := ⟨sx, hit.normal.y⟩
          position := ⟨add aabb.position.x (mul aabb.half.x sx), point.y⟩ }
      else
        let sy := sign dy
        some { hit with
          delta := ⟨hit.delta.x, mul py sy⟩
          normal := ⟨hit.normal.x, sy⟩
          position := ⟨point.x, add aabb.position.y (mul aabb.half.y sy)⟩ }

/-- `Collision.AABB.intersectSegment` (slab method). -/
def intersectSegment (aabb : AABB) (start delta : JVec)
    (padding : JVec) : Option Hit :=
  let scaleX := oneDiv delta.x
  let scaleY := oneDiv delta.y
  let signX := sign scaleX
  let signY := sign scaleY
  let nearTimeX :=
    mul (sub (sub aabb.position.x (mul signX (add aabb.half.x padding.x)))
      start.x) scaleX
  let nearTimeY :=
    mul (sub (sub aabb.position.y (mul signY (add aabb.half.y padding.y)))
      start.y) scaleY
  let farTimeX :=
    mul (sub (add aabb.position.x (mul signX (add aabb.half.x padding.x)))
      start.x) scaleX
  let farTimeY :=
    mul (sub (add aabb.position.y (mul signY (add aabb.half.y padding.y)))
      start.y) scaleY
  if lt farTimeY nearTimeX || lt farTimeX nearTimeY then none
  else
    let nearTime := if lt nearTimeY nearTimeX then nearTimeX else nearTimeY
    let farTime := if lt farTimeX farTimeY then farTimeX else farTimeY
    if le (fin 1) nearTime || le farTime (fin 0) then none
    else
      let t := jsMin (fin 1) (jsMax (fin 0) nearTime)
      some
        { collider := aabb
          time := t
          normal :=
            if lt nearTimeY nearTimeX then ⟨neg signX, fin 0⟩
            else ⟨fin 0, neg signY⟩
          delta := ⟨mul t delta.x, mul t delta.y⟩
          position := ⟨add start.x (mul t delta.x), add start.y (mul t delta.y)⟩ }

/-- `Collision.AABB.intersectAABB`. -/
def intersectAABB (aabb box : AABB) : Option Hit :=
  let dx := sub box.position.x aabb.position.x
  let px := sub (add box.half.x aabb.half.x) (jsAbs dx)
  if le px (fin 0) then none
  else
    let dy := sub box.position.y aabb.position.y
    let py := sub (add box.half.y aabb.half.y) (jsAbs dy)
    if le py (fin 0) then none
    else
      let hit := Hit.init aabb
      if lt px py then
        let sx := sign dx
        some { hit with
          delta := ⟨mul px sx, hit.delta.y⟩
          normal := ⟨sx, hit.normal.y⟩
          position := ⟨add aabb.position.x (mul aabb.half.x sx),
            box.position.y⟩ }
      else
        let sy := sign dy
        some { hit with
          delta := ⟨hit.delta.x, mul py sy⟩
          normal := ⟨hit.normal.x, sy⟩
          position := ⟨box.position.x,
            add aabb.position.y (mul aabb.half.y sy)⟩ }

/-- The file's private `normalize` helper (its square root is the abstract
`sqrtFn`; no theorem depends on its values). -/
def normalize (sqrtFn : ℚ → ℚ) (point : JVec) : JVec :=
  let length := add (mul point.x point.x) (mul point.y point.y)
  if lt (fin 0) length then
    let root := jsSqrt sqrtFn length
    let inverseLength := oneDiv root
    ⟨mul point.x inverseLength, mul point.y inverseLength⟩
  else point

/-- The file's private `clamp` helper:
`Math.min( max, Math.max( min, value ) )`. -/
def clamp (value lo hi : JsNum) : JsNum := jsMin hi (jsMax lo value)

/-- `Collision.AABB.sweepAABB`. -/
def sweepAABB (sqrtFn : ℚ → ℚ) (aabb box : AABB) (delta : JVec) : Sweep :=
  if delta.x = fin 0 ∧ delta.y = fin 0 then
    let hit0 := intersectAABB aabb box
    { position := box.position
      hit := hit0.map (fun h => { h with time := fin 0 })
      time := if hit0.isSome then fin 0 else fin 1 }
  else
    match intersectSegment aabb box.position delta box.half with
    | some h =>
      let t := clamp (sub h.time EPSILON) (fin 0) (fin 1)
      let direction := normalize sqrtFn ⟨delta.x, delta.y⟩
      { hit := some { h with
          position := ⟨add h.position.x (mul direction.x box.half.x),
            add h.position.y (mul direction.y box.half.y)⟩ }
        time := t
        position := ⟨add box.position.x (mul delta.x t),
          add box.position.y (mul delta.y t)⟩ }
    | none =>
      { hit := none
        position := ⟨add box.position.x delta.x, add box.position.y delta.y⟩
        time := fin 1 }

/-- `Collision.AABB.sweepInto`, with the per-collider call performed as the
documentation intends (`Collision.AABB.sweepAABB(collider, aabb, delta)`).
The source line instead reads `Collision.sweepAABB( collider, aabb, delta )`
— a property that does not exist on the `Collision` namespace object — so
the running code throws a TypeError as soon as the collider list is
nonempty; see the C5 entry. -/
def sweepInto (sqrtFn : ℚ → ℚ) (aabb : AABB) (staticColliders : List AABB)
    (delta : JVec) : Sweep :=
  staticColliders.foldl
    (fun nearest collider =>
      let sweep := sweepAABB sqrtFn collider aabb delta
      if lt sweep.time nearest.time then sweep else nearest)
    { hit := none
      position := ⟨add aabb.position.x delta.x, add aabb.position.y delta.y⟩
      time := fin 1 }

namespace JsNum

@[simp] theorem add_fin_fin (a b : ℚ) : add (fin a) (fin b) = fin (a + b) :=
  rfl

@[simp] theorem sub_fin_fin (a b : ℚ) : sub (fin a) (fin b) = fin (a - b) :=
  rfl

@[simp] theorem mul_fin_fin (a b : ℚ) : mul (fin a) (fin b) = fin (a * b) :=
  rfl

@[simp] theorem jsAbs_fin (a : ℚ) : jsAbs (fin a) = fin |a| := rfl

@[simp] theorem le_fin_fin (a b : ℚ) : le (fin a) (fin b) = decide (a ≤ b) :=
  rfl

@[simp] theorem lt_fin_fin (a b : ℚ) : lt (fin a) (fin b) = decide (a < b) :=
  rfl

@[simp] theorem neg_fin (a : ℚ) : neg (fin a) = fin (-a) := rfl

theorem sign_fin (a : ℚ) :
    sign (fin a) =
      if a < 0 then fin (-1) else if 0 < a then fin 1 else fin 0 := rfl

theorem oneDiv_fin (a : ℚ) :
    oneDiv (fin a) = if a = 0 then inf else fin a⁻¹ := rfl

theorem lt_irrefl (a : JsNum) : lt a a = false := by
  cases a <;> simp [lt]

/-- The anti-symmetry-style fact the nearest-sweep fold relies on: if `a`
went strictly below `c` and `b` did not, then `b` is not strictly below
`a` (NaN never compares). -/
theorem lt_false_of_lt_of_not_lt {a b c : JsNum} (h1 : lt a c = true)
    (h2 : lt b c = false) : lt b a = false := by
  cases a <;> cases b <;> cases c <;>
    simp_all [lt] <;> linarith

@[simp] theorem lt_fin_inf (a : ℚ) : lt (fin a) inf = true := rfl

@[simp] theorem lt_fin_ninf (a : ℚ) : lt (fin a) ninf = false := rfl

@[simp] theorem lt_inf_fin (a : ℚ) : lt inf (fin a) = false := rfl

@[simp] theorem lt_ninf_fin (a : ℚ) : lt ninf (fin a) = true := rfl

@[simp] theorem lt_inf_inf : lt inf inf = false := rfl

@[simp] theorem lt_ninf_ninf : lt ninf ninf = false := rfl

@[simp] theorem lt_inf_ninf : lt inf ninf = false := rfl

@[simp] theorem lt_ninf_inf : lt ninf inf = true := rfl

@[simp] theorem le_fin_inf (a : ℚ) : le (fin a) inf = true := rfl

@[simp] theorem le_fin_ninf (a : ℚ) : le (fin a) ninf = false := rfl

@[simp] theorem le_inf_fin (a : ℚ) : le inf (fin a) = false := rfl

@[simp] theorem le_ninf_fin (a : ℚ) : le ninf (fin a) = true := rfl

@[simp] theorem le_inf_inf : le inf inf = true := rfl

@[simp] theorem le_ninf_ninf : le ninf ninf = true := rfl

@[simp] theorem le_ninf_inf : le ninf inf = true := rfl

@[simp] theorem sign_inf : sign inf = fin 1 := rfl

@[simp] theorem sign_ninf : sign ninf = fin (-1) := rfl

@[simp] theorem oneDiv_zero : oneDiv (fin 0) = inf := by
  simp [oneDiv]

theorem oneDiv_fin_ne {a : ℚ} (h : a ≠ 0) : oneDiv (fin a) = fin a⁻¹ := by
  simp [oneDiv, h]

theorem sign_fin_pos {a : ℚ} (h : 0 < a) : sign (fin a) = fin 1 := by
  show (if a < 0 then fin (-1) else if 0 < a then fin 1 else fin 0) = fin 1
  rw [if_neg (by linarith), if_pos h]

theorem sign_fin_neg {a : ℚ} (h : a < 0) : sign (fin a) = fin (-1) := by
  show (if a < 0 then fin (-1) else if 0 < a then fin 1 else fin 0)
    = fin (-1)
  rw [if_pos h]

theorem mul_fin_inf_pos {a : ℚ} (h : 0 < a) : mul (fin a) inf = inf := by
  show (if 0 < a then inf else if a < 0 then ninf else nan) = inf
  rw [if_pos h]

theorem mul_fin_inf_neg {a : ℚ} (h : a < 0) : mul (fin a) inf = ninf := by
  show (if 0 < a then inf else if a < 0 then ninf else nan) = ninf
  rw [if_neg (by linarith), if_pos h]

theorem jsMax_fin_fin (a b : ℚ) : jsMax (fin a) (fin b) = fin (max a b) := by
  simp only [jsMax]
  rw [if_neg (by simp)]
  by_cases h : a < b
  · rw [if_pos (by simpa using h), max_eq_right (le_of_lt h)]
  · rw [if_neg (by simpa using h), max_eq_left (not_lt.mp h)]

theorem jsMin_fin_fin (a b : ℚ) : jsMin (fin a) (fin b) = fin (min a b) := by
  simp only [jsMin]
  rw [if_neg (by simp)]
  by_cases h : a < b
  · rw [if_pos (by simpa using h), min_eq_left (le_of_lt h)]
  · rw [if_neg (by simpa using h), min_eq_right (not_lt.mp h)]

theorem lt_false_of_lt {a b : JsNum} (h : lt a b = true) : lt b a = false := by
  cases a <;> cases b <;> simp_all [lt] <;> linarith

theorem lt_true_trans {a b c : JsNum} (h1 : lt a b = true)
    (h2 : lt b c = true) : lt a c = true := by
  cases a <;> cases b <;> cases c <;> simp_all [lt] <;> linarith

end JsNum

/-- The nearest-sweep fold of `sweepInto`, specified for any accumulator:
the result is the accumulator or one of the per-collider sweeps, no
per-collider sweep time is strictly below the result's, and the result
either strictly improved on the accumulator or is the accumulator. -/
theorem sweepInto_foldl_spec (sqrtFn : ℚ → ℚ) (aabb : AABB) (delta : JVec)
    (l : List AABB) (acc : Sweep) :
    (l.foldl
        (fun nearest collider =>
          let sweep := sweepAABB sqrtFn collider aabb delta
          if JsNum.lt sweep.time nearest.time then sweep else nearest)
        acc = acc ∨
      l.foldl
        (fun nearest collider =>
          let sweep := sweepAABB sqrtFn collider aabb delta
          if JsNum.lt sweep.time nearest.time then sweep else nearest)
        acc ∈ l.map (fun c => sweepAABB sqrtFn c aabb delta)) ∧
    (∀ c ∈ l,
      JsNum.lt (sweepAABB sqrtFn c aabb delta).time
        (l.foldl
          (fun nearest collider =>
            let sweep := sweepAABB sqrtFn collider aabb delta
            if JsNum.lt sweep.time nearest.time then sweep else nearest)
          acc).time = false) ∧
    (JsNum.lt
        (l.foldl
          (fun nearest collider =>
            let sweep := sweepAABB sqrtFn collider aabb delta
            if JsNum.lt sweep.time nearest.time then sweep else nearest)
          acc).time acc.time = true ∨
      l.foldl
        (fun nearest collider =>
          let sweep := sweepAABB sqrtFn collider aabb delta
          if JsNum.lt sweep.time nearest.time then sweep else nearest)
        acc = acc) := by
  induction l generalizing acc with
  | nil =>
    refine ⟨Or.inl rfl, ?_, Or.inr rfl⟩
    intro c hc
    cases hc
  | cons hd tl ih =>
    simp only [List.foldl_cons]
    by_cases hcmp :
        JsNum.lt (sweepAABB sqrtFn hd aabb delta).time acc.time = true
    · rw [if_pos hcmp]
      obtain ⟨ih1, ih2, ih3⟩ := ih (sweepAABB sqrtFn hd aabb delta)
      refine ⟨?_, ?_, ?_⟩
      · rcases ih1 with he | hm
        · exact Or.inr (by simp [he])
        · exact Or.inr (List.mem_cons_of_mem _ hm)
      · intro c hc
        rcases List.mem_cons.mp hc with rfl | hc
        · rcases ih3 with hlt | he
          · exact JsNum.lt_false_of_lt hlt
          · rw [he]
            exact JsNum.lt_irrefl _
        · exact ih2 c hc
      · rcases ih3 with hlt | he
        · exact Or.inl (JsNum.lt_true_trans hlt hcmp)
        · rw [he]
          exact Or.inl hcmp
    · rw [if_neg hcmp]
      obtain ⟨ih1, ih2, ih3⟩ := ih acc
      refine ⟨?_, ?_, ?_⟩
      · rcases ih1 with he | hm
        · exact Or.inl he
        · exact Or.inr (List.mem_cons_of_mem _ hm)
      · intro c hc
        rcases List.mem_cons.mp hc with rfl | hc
        · rcases ih3 with hlt | he
          · exact JsNum.lt_false_of_lt_of_not_lt hlt
              (Bool.eq_false_iff.mpr (fun h => hcmp h))
          · rw [he]
            exact Bool.eq_false_iff.mpr (fun h => hcmp h)
        · exact ih2 c hc
      · exact ih3

theorem sign_fin_exists (a : ℚ) :
    ∃ s : ℚ, JsNum.sign (JsNum.fin a) = JsNum.fin s := by
  show ∃ s, (if a < 0 then JsNum.fin (-1) else if 0 < a then JsNum.fin 1
    else JsNum.fin 0) = JsNum.fin s
  split_ifs <;> exact ⟨_, rfl⟩

/-- Spec-side 1-D slab outcome on the y axis alone: what `intersectSegment`
is expected to produce when the x axis imposes no constraint (the start is
strictly inside the padded x slab and the x delta is zero). -/
def yOnlySlab (ax ay hx hy sx sy dy pady : ℚ) : Option Hit :=
  let sgn : ℚ := if 0 < dy then 1 else -1
  let nT := (ay - sgn * (hy + pady) - sy) * dy⁻¹
  let fT := (ay + sgn * (hy + pady) - sy) * dy⁻¹
  if 1 ≤ nT ∨ fT ≤ 0 then none
  else
    let t := min 1 (max 0 nT)
    some ⟨⟨⟨JsNum.fin ax, JsNum.fin ay⟩, ⟨JsNum.fin hx, JsNum.fin hy⟩⟩,
      ⟨JsNum.fin sx, JsNum.fin (sy + t * dy)⟩,
      ⟨JsNum.fin 0, JsNum.fin (t * dy)⟩,
      ⟨JsNum.fin 0, JsNum.fin (-sgn)⟩, JsNum.fin t⟩

/-- Spec-side 1-D slab outcome on the x axis alone, mirror of `yOnlySlab`. -/
def xOnlySlab (ax ay hx hy sx sy dx padx : ℚ) : Option Hit :=
  let sgn : ℚ := if 0 < dx then 1 else -1
  let nT := (ax - sgn * (hx + padx) - sx) * dx⁻¹
  let fT := (ax + sgn * (hx + padx) - sx) * dx⁻¹
  if 1 ≤ nT ∨ fT ≤ 0 then none
  else
    let t := min 1 (max 0 nT)
    some ⟨⟨⟨JsNum.fin ax, JsNum.fin ay⟩, ⟨JsNum.fin hx, JsNum.fin hy⟩⟩,
      ⟨JsNum.fin (sx + t * dx), JsNum.fin sy⟩,
      ⟨JsNum.fin (t * dx), JsNum.fin 0⟩,
      ⟨JsNum.fin (-sgn), JsNum.fin 0⟩, JsNum.fin t⟩

/-- Zero x delta, finite nonzero y delta, start strictly outside the padded
x slab: no intersection — the infinite x entry time (or negative-infinite x
exit time) trips the slab rejection. -/
theorem intersectSegment_zeroX_outside
    (ax ay hx hy sx sy dy padx pady : ℚ) (hdy : dy ≠ 0)
    (hout : sx < ax - (hx + padx) ∨ ax + (hx + padx) < sx) :
    intersectSegment
      ⟨⟨JsNum.fin ax, JsNum.fin ay⟩, ⟨JsNum.fin hx, JsNum.fin hy⟩⟩
      ⟨JsNum.fin sx, JsNum.fin sy⟩ ⟨JsNum.fin 0, JsNum.fin dy⟩
      ⟨JsNum.fin padx, JsNum.fin pady⟩ = none := by
  obtain ⟨s, hs⟩ := sign_fin_exists dy⁻¹
  unfold intersectSegment
  simp only [JsNum.oneDiv_zero, JsNum.sign_inf, JsNum.oneDiv_fin_ne hdy, hs,
    JsNum.mul_fin_fin, JsNum.add_fin_fin, JsNum.sub_fin_fin]
  rcases hout with hlt | hgt
  · rw [JsNum.mul_fin_inf_pos
      (show 0 < ax - 1 * (hx + padx) - sx by linarith)]
    simp
  · rw [JsNum.mul_fin_inf_neg
      (show ax + 1 * (hx + padx) - sx < 0 by linarith)]
    simp

/-- Zero y delta, finite nonzero x delta, start strictly outside the padded
y slab: no intersection. -/
theorem intersectSegment_zeroY_outside
    (ax ay hx hy sx sy dx padx pady : ℚ) (hdx : dx ≠ 0)
    (hout : sy < ay - (hy + pady) ∨ ay + (hy + pady) < sy) :
    intersectSegment
      ⟨⟨JsNum.fin ax, JsNum.fin ay⟩, ⟨JsNum.fin hx, JsNum.fin hy⟩⟩
      ⟨JsNum.fin sx, JsNum.fin sy⟩ ⟨JsNum.fin dx, JsNum.fin 0⟩
      ⟨JsNum.fin padx, JsNum.fin pady⟩ = none := by
  obtain ⟨s, hs⟩ := sign_fin_exists dx⁻¹
  unfold intersectSegment
  simp only [JsNum.oneDiv_zero, JsNum.sign_inf, JsNum.oneDiv_fin_ne hdx, hs,
    JsNum.mul_fin_fin, JsNum.add_fin_fin, JsNum.sub_fin_fin]
  rcases hout with hlt | hgt
  · rw [JsNum.mul_fin_inf_pos
      (show 0 < ay - 1 * (hy + pady) - sy by linarith)]
    simp
  · rw [JsNum.mul_fin_inf_neg
      (show ay + 1 * (hy + pady) - sy < 0 by linarith)]
    simp

theorem jsMax_fin_ninf (a : ℚ) :
    JsNum.jsMax (JsNum.fin a) JsNum.ninf = JsNum.fin a := by
  simp [JsNum.jsMax]

/-- Zero x delta, finite nonzero y delta, start strictly inside the padded
x slab: the x axis imposes no constraint and the result is exactly the 1-D
y slab outcome. -/
theorem intersectSegment_zeroX_inside
    (ax ay hx hy sx sy dy padx pady : ℚ) (hdy : dy ≠ 0)
    (h1 : ax - (hx + padx) < sx) (h2 : sx < ax + (hx + padx)) :
    intersectSegment
      ⟨⟨JsNum.fin ax, JsNum.fin ay⟩, ⟨JsNum.fin hx, JsNum.fin hy⟩⟩
      ⟨JsNum.fin sx, JsNum.fin sy⟩ ⟨JsNum.fin 0, JsNum.fin dy⟩
      ⟨JsNum.fin padx, JsNum.fin pady⟩ =
      yOnlySlab ax ay hx hy sx sy dy pady := by
  have hsgn : JsNum.sign (JsNum.fin dy⁻¹) =
      JsNum.fin (if 0 < dy then 1 else -1) := by
    rcases hdy.lt_or_lt with hneg | hpos
    · rw [if_neg (by linarith)]
      exact JsNum.sign_fin_neg (inv_lt_zero.mpr hneg)
    · rw [if_pos hpos]
      exact JsNum.sign_fin_pos (inv_pos.mpr hpos)
  unfold intersectSegment yOnlySlab
  simp only [JsNum.oneDiv_zero, JsNum.sign_inf, JsNum.oneDiv_fin_ne hdy,
    hsgn, JsNum.mul_fin_fin, JsNum.add_fin_fin, JsNum.sub_fin_fin]
  rw [JsNum.mul_fin_inf_neg
      (show ax - 1 * (hx + padx) - sx < 0 by linarith),
    JsNum.mul_fin_inf_pos
      (show 0 < ax + 1 * (hx + padx) - sx by linarith)]
  simp [JsNum.jsMax_fin_fin, JsNum.jsMin_fin_fin]

/-- Zero y delta, finite nonzero x delta, start strictly inside the padded
y slab: the y axis imposes no constraint and the result is exactly the 1-D
x slab outcome. -/
theorem intersectSegment_zeroY_inside
    (ax ay hx hy sx sy dx padx pady : ℚ) (hdx : dx ≠ 0)
    (h1 : ay - (hy + pady) < sy) (h2 : sy < ay + (hy + pady)) :
    intersectSegment
      ⟨⟨JsNum.fin ax, JsNum.fin ay⟩, ⟨JsNum.fin hx, JsNum.fin hy⟩⟩
      ⟨JsNum.fin sx, JsNum.fin sy⟩ ⟨JsNum.fin dx, JsNum.fin 0⟩
      ⟨JsNum.fin padx, JsNum.fin pady⟩ =
      xOnlySlab ax ay hx hy sx sy dx padx := by
  have hsgn : JsNum.sign (JsNum.fin dx⁻¹) =
      JsNum.fin (if 0 < dx then 1 else -1) := by
    rcases hdx.lt_or_lt with hneg | hpos
    · rw [if_neg (by linarith)]
      exact JsNum.sign_fin_neg (inv_lt_zero.mpr hneg)
    · rw [if_pos hpos]
      exact JsNum.sign_fin_pos (inv_pos.mpr hpos)
  unfold intersectSegment xOnlySlab
  simp only [JsNum.oneDiv_zero, JsNum.sign_inf, JsNum.oneDiv_fin_ne hdx,
    hsgn, JsNum.mul_fin_fin, JsNum.add_fin_fin, JsNum.sub_fin_fin]
  rw [JsNum.mul_fin_inf_neg
      (show ay - 1 * (hy + pady) - sy < 0 by linarith),
    JsNum.mul_fin_inf_pos
      (show 0 < ay + 1 * (hy + pady) - sy by linarith)]
  simp [JsNum.jsMax_fin_fin, JsNum.jsMin_fin_fin]

/-- Degenerate zero-delta segment with the start strictly inside the padded
box on both axes: a hit at time 0, at the start point, with the normal the
tie-break picks. -/
theorem intersectSegment_zeroDelta_inside
    (ax ay hx hy sx sy padx pady : ℚ)
    (h1 : ax - (hx + padx) < sx) (h2 : sx < ax + (hx + padx))
    (h3 : ay - (hy + pady) < sy) (h4 : sy < ay + (hy + pady)) :
    intersectSegment
      ⟨⟨JsNum.fin ax, JsNum.fin ay⟩, ⟨JsNum.fin hx, JsNum.fin hy⟩⟩
      ⟨JsNum.fin sx, JsNum.fin sy⟩ ⟨JsNum.fin 0, JsNum.fin 0⟩
      ⟨JsNum.fin padx, JsNum.fin pady⟩ =
      some ⟨⟨⟨JsNum.fin ax, JsNum.fin ay⟩, ⟨JsNum.fin hx, JsNum.fin hy⟩⟩,
        ⟨JsNum.fin sx, JsNum.fin sy⟩, ⟨JsNum.fin 0, JsNum.fin 0⟩,
        ⟨JsNum.fin 0, JsNum.fin (-1)⟩, JsNum.fin 0⟩ := by
  unfold intersectSegment
  simp only [JsNum.oneDiv_zero, JsNum.sign_inf, JsNum.mul_fin_fin,
    JsNum.add_fin_fin, JsNum.sub_fin_fin]
  rw [JsNum.mul_fin_inf_neg
      (show ax - 1 * (hx + padx) - sx < 0 by linarith),
    JsNum.mul_fin_inf_pos
      (show 0 < ax + 1 * (hx + padx) - sx by linarith),
    JsNum.mul_fin_inf_neg
      (show ay - 1 * (hy + pady) - sy < 0 by linarith),
    JsNum.mul_fin_inf_pos
      (show 0 < ay + 1 * (hy + pady) - sy by linarith)]
  simp [jsMax_fin_ninf, JsNum.jsMin_fin_fin, JsNum.le, JsNum.lt]

/-- Degenerate zero-delta segment with the start strictly away from every
padded slab boundary and strictly outside the box on at least one axis: no
intersection. -/
theorem intersectSegment_zeroDelta_outside
    (ax ay hx hy sx sy padx pady : ℚ)
    (hpx : 0 ≤ hx + padx) (hpy : 0 ≤ hy + pady)
    (hX : sx < ax - (hx + padx) ∨
      (ax - (hx + padx) < sx ∧ sx < ax + (hx + padx)) ∨
      ax + (hx + padx) < sx)
    (hY : sy < ay - (hy + pady) ∨
      (ay - (hy + pady) < sy ∧ sy < ay + (hy + pady)) ∨
      ay + (hy + pady) < sy)
    (hout : (sx < ax - (hx + padx) ∨ ax + (hx + padx) < sx) ∨
      (sy < ay - (hy + pady) ∨ ay + (hy + pady) < sy)) :
    intersectSegment
      ⟨⟨JsNum.fin ax, JsNum.fin ay⟩, ⟨JsNum.fin hx, JsNum.fin hy⟩⟩
      ⟨JsNum.fin sx, JsNum.fin sy⟩ ⟨JsNum.fin 0, JsNum.fin 0⟩
      ⟨JsNum.fin padx, JsNum.fin pady⟩ = none := by
  unfold intersectSegment
  simp only [JsNum.oneDiv_zero, JsNum.sign_inf, JsNum.mul_fin_fin,
    JsNum.add_fin_fin, JsNum.sub_fin_fin]
  rcases hX with hxb | ⟨hxi1, hxi2⟩ | hxa
  · rw [JsNum.mul_fin_inf_pos
        (show 0 < ax - 1 * (hx + padx) - sx by linarith),
      JsNum.mul_fin_inf_pos
        (show 0 < ax + 1 * (hx + padx) - sx by linarith)]
    rcases hY with hyb | ⟨hyi1, hyi2⟩ | hya
    · rw [JsNum.mul_fin_inf_pos
          (show 0 < ay - 1 * (hy + pady) - sy by linarith),
        JsNum.mul_fin_inf_pos
          (show 0 < ay + 1 * (hy + pady) - sy by linarith)]
      simp
    · rw [JsNum.mul_fin_inf_neg
          (show ay - 1 * (hy + pady) - sy < 0 by linarith),
        JsNum.mul_fin_inf_pos
          (show 0 < ay + 1 * (hy + pady) - sy by linarith)]
      simp
    · rw [JsNum.mul_fin_inf_neg
          (show ay - 1 * (hy + pady) - sy < 0 by linarith),
        JsNum.mul_fin_inf_neg
          (show ay + 1 * (hy + pady) - sy < 0 by linarith)]
      simp
  · rw [JsNum.mul_fin_inf_neg
        (show ax - 1 * (hx + padx) - sx < 0 by linarith),
      JsNum.mul_fin_inf_pos
        (show 0 < ax + 1 * (hx + padx) - sx by linarith)]
    rcases hY with hyb | ⟨hyi1, hyi2⟩ | hya
    · rw [JsNum.mul_fin_inf_pos
          (show 0 < ay - 1 * (hy + pady) - sy by linarith),
        JsNum.mul_fin_inf_pos
          (show 0 < ay + 1 * (hy + pady) - sy by linarith)]
      simp
    · exfalso
      rcases hout with (h | h) | (h | h) <;> linarith
    · rw [JsNum.mul_fin_inf_neg
          (show ay - 1 * (hy + pady) - sy < 0 by linarith),
        JsNum.mul_fin_inf_neg
          (show ay + 1 * (hy + pady) - sy < 0 by linarith)]
      simp
  · rw [JsNum.mul_fin_inf_neg
        (show ax - 1 * (hx + padx) - sx < 0 by linarith),
      JsNum.mul_fin_inf_neg
        (show ax + 1 * (hx + padx) - sx < 0 by linarith)]
    rcases hY with hyb | ⟨hyi1, hyi2⟩ | hya
    · rw [JsNum.mul_fin_inf_pos
          (show 0 < ay - 1 * (hy + pady) - sy by linarith),
        JsNum.mul_fin_inf_pos
          (show 0 < ay + 1 * (hy + pady) - sy by linarith)]
      simp
    · rw [JsNum.mul_fin_inf_neg
          (show ay - 1 * (hy + pady) - sy < 0 by linarith),
        JsNum.mul_fin_inf_pos
          (show 0 < ay + 1 * (hy + pady) - sy by linarith)]
      simp
    · rw [JsNum.mul_fin_inf_neg
          (show ay - 1 * (hy + pady) - sy < 0 by linarith),
        JsNum.mul_fin_inf_neg
          (show ay + 1 * (hy + pady) - sy < 0 by linarith)]
      simp

/-- A sweep that hit nothing reports the full time 1. -/
theorem sweepAABB_time_of_hit_none (sqrtFn : ℚ → ℚ) (aabb box : AABB)
    (delta : JVec) (h : (sweepAABB sqrtFn aabb box delta).hit = none) :
    (sweepAABB sqrtFn aabb box delta).time = JsNum.fin 1 := by
  unfold sweepAABB at h ⊢
  by_cases hz : delta.x = JsNum.fin 0 ∧ delta.y = JsNum.fin 0
  · rw [if_pos hz] at h ⊢
    simp only [Option.map_eq_none'] at h
    simp [h]
  · rw [if_neg hz] at h ⊢
    cases hseg : intersectSegment aabb box.position delta box.half
    · rfl
    · rw [hseg] at h
      simp at h

end Swept

open Swept in
/-- C5, against the intended dispatch (the running code's per-collider call
names a function that does not exist, see the C5 record): `sweepInto`
returns a sweep that is the initial full-travel sweep or one of the
per-collider sweeps, no per-collider sweep time is strictly below the
returned time (nearest collision wins), and when no collider is hit — in
particular for the empty list — the result is the full-travel sweep with
time 1 and position `aabb.position + delta`. -/
theorem C5_sweepInto_returns_nearest (sqrtFn : ℚ → ℚ) (aabb : AABB)
    (staticColliders : List AABB) (delta : JVec) :
    (sweepInto sqrtFn aabb staticColliders delta =
        { hit := none
          position := ⟨JsNum.add aabb.position.x delta.x,
            JsNum.add aabb.position.y delta.y⟩
          time := JsNum.fin 1 } ∨
      sweepInto sqrtFn aabb staticColliders delta ∈
        staticColliders.map (fun c => sweepAABB sqrtFn c aabb delta)) ∧
    (∀ c ∈ staticColliders,
      JsNum.lt (sweepAABB sqrtFn c aabb delta).time
        (sweepInto sqrtFn aabb staticColliders delta).time = false) ∧
    ((∀ c ∈ staticColliders, (sweepAABB sqrtFn c aabb delta).hit = none) →
      sweepInto sqrtFn aabb staticColliders delta =
        { hit := none
          position := ⟨JsNum.add aabb.position.x delta.x,
            JsNum.add aabb.position.y delta.y⟩
          time := JsNum.fin 1 }) := by
  have hspec := sweepInto_foldl_spec sqrtFn aabb delta staticColliders
    { hit := none
      position := ⟨JsNum.add aabb.position.x delta.x,
        JsNum.add aabb.position.y delta.y⟩
      time := JsNum.fin 1 }
  refine ⟨?_, ?_, ?_⟩
  · rcases hspec.1 with he | hm
    · exact Or.inl he
    · exact Or.inr hm
  · exact hspec.2.1
  · intro hnone
    clear hspec
    induction staticColliders with
    | nil => rfl
    | cons hd tl ih =>
      have hhd : (sweepAABB sqrtFn hd aabb delta).time = JsNum.fin 1 :=
        sweepAABB_time_of_hit_none sqrtFn hd aabb delta
          (hnone hd (List.mem_cons_self hd tl))
      unfold sweepInto
      simp only [List.foldl_cons]
      rw [show (if JsNum.lt (sweepAABB sqrtFn hd aabb delta).time
          (JsNum.fin 1) then sweepAABB sqrtFn hd aabb delta else
          ({ hit := none
             position := ⟨JsNum.add aabb.position.x delta.x,
               JsNum.add aabb.position.y delta.y⟩
             time := JsNum.fin 1 } : Sweep)) =
          { hit := none
            position := ⟨JsNum.add aabb.position.x delta.x,
              JsNum.add aabb.position.y delta.y⟩
            time := JsNum.fin 1 } from by
        rw [hhd]
        simp [JsNum.lt]]
      have := ih (fun c hc => hnone c (List.mem_cons_of_mem hd hc))
      unfold sweepInto at this
      exact this

/-- Witness for C5 with no colliders: the full, unobstructed sweep. -/
theorem C5_witness :
    Swept.sweepInto (fun _ => 0)
        ⟨⟨Swept.JsNum.fin 0, Swept.JsNum.fin 0⟩,
          ⟨Swept.JsNum.fin 1, Swept.JsNum.fin 1⟩⟩ []
        ⟨Swept.JsNum.fin 2, Swept.JsNum.fin 3⟩ =
      { hit := none
        position := ⟨Swept.JsNum.add (Swept.JsNum.fin 0) (Swept.JsNum.fin 2),
          Swept.JsNum.add (Swept.JsNum.fin 0) (Swept.JsNum.fin 3)⟩
        time := Swept.JsNum.fin 1 } :=
  (C5_sweepInto_returns_nearest (fun _ => 0)
    ⟨⟨Swept.JsNum.fin 0, Swept.JsNum.fin 0⟩,
      ⟨Swept.JsNum.fin 1, Swept.JsNum.fin 1⟩⟩ []
    ⟨Swept.JsNum.fin 2, Swept.JsNum.fin 3⟩).2.2
    (fun c hc => absurd hc (List.not_mem_nil c))

namespace Spatial

/-- `SpatialPartitionRegion`, with integer coordinates (the JavaScript shift
and rounding operators are exact on in-range integers, which is the model
of this embedding). -/
structure Region where
  x : ℤ
  y : ℤ
  width : ℤ
  height : ℤ
deriving DecidableEq

/-- Closed-rectangle overlap ("truly overlap"), the same formula the
quadtree's `isInField` uses. -/
def overlapB (a b : Region) : Bool :=
  decide (a.x ≤ b.x + b.width ∧ b.x ≤ a.x + a.width ∧
    a.y ≤ b.y + b.height ∧ b.y ≤ a.y + a.height)

/-- The smallest `k` with `n ≤ 2 ^ k`: the exact value of
`Math.ceil( Math.log( n ) / Math.log( 2 ) )` for positive `n`. -/
def ceilLog2 (n : ℕ) : ℕ :=
  (((List.range (n + 1)).filter (fun k => n ≤ 2 ^ k)).headD 0)

/-- The `getHashes` helper of SpatialHash.js, bound to the constructor's
`(field.x, field.y, (max >> shift) - 1, shift)`.  A hash string `'x:y'` is
modelled as the pair (x, y), on which the separator makes concatenation
injective; `>>` is floor division by a power of two. -/
def getHashes (offsetX offsetY : ℤ) (maxIndex : ℤ) (size : ℕ)
    (region : Region) : List (ℤ × ℤ) :=
  let x := region.x - offsetX
  let y := region.y - offsetY
  let sx := max (Int.fdiv x (2 ^ size)) 0
  let sy := max (Int.fdiv y (2 ^ size)) 0
  let ex := min (Int.fdiv (x + region.width) (2 ^ size)) maxIndex
  let ey := min (Int.fdiv (y + region.height) (2 ^ size)) maxIndex
  (List.range (ey - sy + 1).toNat).flatMap (fun j : ℕ =>
    (List.range (ex - sx + 1).toNat).map
      (fun i : ℕ => (sx + (i : ℤ), sy + (j : ℤ))))

/-- The grid hash state: the four values `getHashes` is bound to, the
bucket map, and the key list/count `add` maintains. -/
structure SpatialHash (K : Type) where
  offsetX : ℤ
  offsetY : ℤ
  maxIndex : ℤ
  size : ℕ
  objects : ℤ × ℤ → List K
  keys : List K
  count : ℕ

/-- The SpatialHash constructor: `max` the larger field dimension,
`nearest` the next power of two (`2 ^ ceilLog2 max`), `divisions = 2 ^ d`
(d = 3 for the default 8), `shift = log2(nearest / divisions)`, and
`getHashes` bound to `(field.x, field.y, (max >> shift) - 1, shift)`; the
buckets start empty (also the `clear` state).  A field narrower than the
division count makes `shift` negative, and `x >> shift` then shifts by
`shift & 31 = shift + 32` (for in-int32-range fields `ceilLog2 max ≤ 31`,
so a single `+ 32` is the exact wrap): every in-range coordinate floors
to `0` or `-1`, the end clamp becomes `(max >> (shift + 32)) - 1 = -1`,
and every bucket range is empty. -/
def SpatialHash.create (K : Type) (field : Region) (d : ℕ) :
    SpatialHash K :=
  let m := max field.width field.height
  let shift := if ceilLog2 m.toNat < d then ceilLog2 m.toNat + 32 - d
    else ceilLog2 m.toNat - d
  { offsetX := field.x
    offsetY := field.y
    maxIndex := Int.fdiv m (2 ^ shift) - 1
    size := shift
    objects := fun _ => []
    keys := []
    count := 0 }

/-- `SpatialHash.add`: push the key onto every bucket of the region's hash
range (and record it in the key list). -/
def SpatialHash.add {K : Type} [DecidableEq K] (s : SpatialHash K) (key : K)
    (region : Region) : SpatialHash K :=
  let hashes := getHashes s.offsetX s.offsetY s.maxIndex s.size region
  { s with
    keys := s.keys ++ [key]
    count := s.count + 1
    objects := fun h =>
      if h ∈ hashes then s.objects h ++ [key] else s.objects h }

/-- `SpatialHash.find`: union (with multiplicity) of the buckets the query
region's hash range covers. -/
def SpatialHash.find {K : Type} (s : SpatialHash K) (region : Region) :
    List K :=
  (getHashes s.offsetX s.offsetY s.maxIndex s.size region).flatMap s.objects

/-- A sequence of `add` calls. -/
def SpatialHash.addAll {K : Type} [DecidableEq K] (s : SpatialHash K)
    (entries : List (K × Region)) : SpatialHash K :=
  entries.foldl (fun acc e => SpatialHash.add acc e.1 e.2) s

/-- Membership in the hash-range list: exactly the clamped inclusive
rectangle of bucket indices. -/
theorem mem_getHashes (offsetX offsetY maxIndex : ℤ) (size : ℕ)
    (region : Region) (p : ℤ × ℤ) :
    p ∈ getHashes offsetX offsetY maxIndex size region ↔
      (max (Int.fdiv (region.x - offsetX) (2 ^ size)) 0 ≤ p.1 ∧
        p.1 ≤ min (Int.fdiv (region.x - offsetX + region.width) (2 ^ size))
          maxIndex ∧
        max (Int.fdiv (region.y - offsetY) (2 ^ size)) 0 ≤ p.2 ∧
        p.2 ≤ min (Int.fdiv (region.y - offsetY + region.height) (2 ^ size))
          maxIndex) := by
  unfold getHashes
  constructor
  · intro hp
    rw [List.mem_flatMap] at hp
    obtain ⟨j, hj, hpj⟩ := hp
    rw [List.mem_map] at hpj
    obtain ⟨i, hi, rfl⟩ := hpj
    rw [List.mem_range] at hj hi
    replace hj := Int.lt_toNat.mp hj
    replace hi := Int.lt_toNat.mp hi
    dsimp only
    refine ⟨?_, ?_, ?_, ?_⟩ <;> omega
  · rintro ⟨h1, h2, h3, h4⟩
    rw [List.mem_flatMap]
    refine ⟨(p.2 - max (Int.fdiv (region.y - offsetY) (2 ^ size)) 0).toNat,
      ?_, ?_⟩
    · rw [List.mem_range, Int.lt_toNat]
      push_cast [Int.toNat_of_nonneg (show
        (0:ℤ) ≤ p.2 - max (Int.fdiv (region.y - offsetY) (2 ^ size)) 0
        by omega)]
      omega
    · rw [List.mem_map]
      refine ⟨(p.1 - max (Int.fdiv (region.x - offsetX) (2 ^ size)) 0).toNat,
        ?_, ?_⟩
      · rw [List.mem_range, Int.lt_toNat]
        push_cast [Int.toNat_of_nonneg (show
          (0:ℤ) ≤ p.1 - max (Int.fdiv (region.x - offsetX) (2 ^ size)) 0
          by omega)]
        omega
      · obtain ⟨p1, p2⟩ := p
        simp only [Prod.mk.injEq]
        rw [Int.toNat_of_nonneg (by omega), Int.toNat_of_nonneg (by omega)]
        constructor <;> omega

theorem fdiv_le_fdiv_right {a b c : ℤ} (hc : 0 < c) (h : a ≤ b) :
    a.fdiv c ≤ b.fdiv c := by
  rw [Int.fdiv_eq_ediv _ hc.le, Int.fdiv_eq_ediv _ hc.le]
  exact Int.ediv_le_ediv hc h

/-- The clamped hash ranges of two truly-overlapping regions share a
bucket, provided each region's own range is nonempty. -/
theorem exists_common_hash (offsetX offsetY maxIndex : ℤ) (size : ℕ)
    (r q : Region) (hrw : 0 ≤ r.width) (hrh : 0 ≤ r.height)
    (hqw : 0 ≤ q.width) (hqh : 0 ≤ q.height)
    (hover : overlapB r q = true)
    (hrne : ∃ p, p ∈ getHashes offsetX offsetY maxIndex size r)
    (hqne : ∃ p, p ∈ getHashes offsetX offsetY maxIndex size q) :
    ∃ p, p ∈ getHashes offsetX offsetY maxIndex size r ∧
      p ∈ getHashes offsetX offsetY maxIndex size q := by
  simp only [overlapB, decide_eq_true_eq] at hover
  obtain ⟨hov1, hov2, hov3, hov4⟩ := hover
  obtain ⟨pr, hpr⟩ := hrne
  obtain ⟨pq, hpq⟩ := hqne
  rw [mem_getHashes] at hpr hpq
  have hpow : (0 : ℤ) < 2 ^ size := by positivity
  -- a common point on each axis, pushed through the monotone floor division
  have hmx1 : Int.fdiv (r.x - offsetX) (2 ^ size) ≤
      Int.fdiv (max (r.x - offsetX) (q.x - offsetX)) (2 ^ size) :=
    fdiv_le_fdiv_right hpow (by omega)
  have hmx2 : Int.fdiv (max (r.x - offsetX) (q.x - offsetX)) (2 ^ size) ≤
      Int.fdiv (r.x - offsetX + r.width) (2 ^ size) :=
    fdiv_le_fdiv_right hpow (by omega)
  have hmx3 : Int.fdiv (q.x - offsetX) (2 ^ size) ≤
      Int.fdiv (max (r.x - offsetX) (q.x - offsetX)) (2 ^ size) :=
    fdiv_le_fdiv_right hpow (by omega)
  have hmx4 : Int.fdiv (max (r.x - offsetX) (q.x - offsetX)) (2 ^ size) ≤
      Int.fdiv (q.x - offsetX + q.width) (2 ^ size) :=
    fdiv_le_fdiv_right hpow (by omega)
  have hmy1 : Int.fdiv (r.y - offsetY) (2 ^ size) ≤
      Int.fdiv (max (r.y - offsetY) (q.y - offsetY)) (2 ^ size) :=
    fdiv_le_fdiv_right hpow (by omega)
  have hmy2 : Int.fdiv (max (r.y - offsetY) (q.y - offsetY)) (2 ^ size) ≤
      Int.fdiv (r.y - offsetY + r.height) (2 ^ size) :=
    fdiv_le_fdiv_right hpow (by omega)
  have hmy3 : Int.fdiv (q.y - offsetY) (2 ^ size) ≤
      Int.fdiv (max (r.y - offsetY) (q.y - offsetY)) (2 ^ size) :=
    fdiv_le_fdiv_right hpow (by omega)
  have hmy4 : Int.fdiv (max (r.y - offsetY) (q.y - offsetY)) (2 ^ size) ≤
      Int.fdiv (q.y - offsetY + q.height) (2 ^ size) :=
    fdiv_le_fdiv_right hpow (by omega)
  refine ⟨(max 0 (min
      (Int.fdiv (max (r.x - offsetX) (q.x - offsetX)) (2 ^ size)) maxIndex),
    max 0 (min
      (Int.fdiv (max (r.y - offsetY) (q.y - offsetY)) (2 ^ size)) maxIndex)),
    ?_, ?_⟩ <;>
    rw [mem_getHashes] <;>
    refine ⟨by omega, by omega, by omega, by omega⟩

/-- The claimed bucket-range computation of C8: both endpoints of the
spanned range clamped into `[0, divisions - 1]` (spec-side comparator;
the source instead clamps the start below at 0 and the end above at
`(max >> shift) - 1`). -/
def getHashesClaimed (offsetX offsetY : ℤ) (divisions : ℤ) (size : ℕ)
    (region : Region) : List (ℤ × ℤ) :=
  let x := region.x - offsetX
  let y := region.y - offsetY
  let sx := max (min (Int.fdiv x (2 ^ size)) (divisions - 1)) 0
  let sy := max (min (Int.fdiv y (2 ^ size)) (divisions - 1)) 0
  let ex := max (min (Int.fdiv (x + region.width) (2 ^ size))
    (divisions - 1)) 0
  let ey := max (min (Int.fdiv (y + region.height) (2 ^ size))
    (divisions - 1)) 0
  (List.range (ey - sy + 1).toNat).flatMap (fun j : ℕ =>
    (List.range (ex - sx + 1).toNat).map
      (fun i : ℕ => (sx + (i : ℤ), sy + (j : ℤ))))

/-- `n ≤ 2 ^ ceilLog2 n`: the constructor's `nearest` is at least the max
field dimension. -/
theorem ceilLog2_spec (n : ℕ) : n ≤ 2 ^ ceilLog2 n := by
  unfold ceilLog2
  have hmem : n ∈ (List.range (n + 1)).filter (fun k => n ≤ 2 ^ k) := by
    rw [List.mem_filter]
    refine ⟨List.mem_range.mpr (by omega), ?_⟩
    simpa using Nat.le_of_lt (Nat.lt_two_pow n)
  obtain ⟨a, t, hcons⟩ :=
    List.exists_cons_of_ne_nil (List.ne_nil_of_mem hmem)
  have hhead : a ∈ (List.range (n + 1)).filter (fun k => n ≤ 2 ^ k) := by
    rw [hcons]
    exact List.mem_cons_self a t
  rw [List.mem_filter] at hhead
  rw [hcons]
  simpa using hhead.2

theorem SpatialHash.add_offsetX {K : Type} [DecidableEq K]
    (s : SpatialHash K) (k : K) (r : Region) :
    (s.add k r).offsetX = s.offsetX := rfl

theorem SpatialHash.addAll_params {K : Type} [DecidableEq K]
    (s : SpatialHash K) (entries : List (K × Region)) :
    (s.addAll entries).offsetX = s.offsetX ∧
    (s.addAll entries).offsetY = s.offsetY ∧
    (s.addAll entries).maxIndex = s.maxIndex ∧
    (s.addAll entries).size = s.size := by
  induction entries generalizing s with
  | nil => exact ⟨rfl, rfl, rfl, rfl⟩
  | cons e t ih => exact ih (s.add e.1 e.2)

/-- Keys already in a bucket survive further adds. -/
theorem SpatialHash.mem_objects_add {K : Type} [DecidableEq K]
    (s : SpatialHash K) (k k2 : K) (r2 : Region) (p : ℤ × ℤ)
    (h : k ∈ s.objects p) : k ∈ (s.add k2 r2).objects p := by
  unfold SpatialHash.add
  dsimp only
  split
  · exact List.mem_append_left _ h
  · exact h

theorem SpatialHash.mem_objects_addAll_of_mem {K : Type} [DecidableEq K]
    (s : SpatialHash K) (entries : List (K × Region)) (k : K) (p : ℤ × ℤ)
    (h : k ∈ s.objects p) : k ∈ (s.addAll entries).objects p := by
  induction entries generalizing s with
  | nil => exact h
  | cons e t ih =>
    exact ih (s.add e.1 e.2) (SpatialHash.mem_objects_add s k e.1 e.2 p h)

/-- After the adds, every added key sits in every bucket of its region's
hash range. -/
theorem SpatialHash.mem_objects_addAll {K : Type} [DecidableEq K]
    (s : SpatialHash K) (entries : List (K × Region)) (k : K) (r : Region)
    (p : ℤ × ℤ) (hmem : (k, r) ∈ entries)
    (hp : p ∈ getHashes s.offsetX s.offsetY s.maxIndex s.size r) :
    k ∈ (s.addAll entries).objects p := by
  induction entries generalizing s with
  | nil => cases hmem
  | cons e t ih =>
    rcases List.mem_cons.mp hmem with he | hmem2
    · have hbase : k ∈ (s.add k r).objects p := by
        unfold SpatialHash.add
        dsimp only
        rw [if_pos hp]
        exact List.mem_append_right _ (List.mem_singleton.mpr rfl)
      have : (s.addAll (e :: t)) = ((s.add e.1 e.2).addAll t) := rfl
      rw [this, ← he]
      exact SpatialHash.mem_objects_addAll_of_mem _ t k p hbase
    · exact ih (s.add e.1 e.2) hmem2 hp

/-- Grid hash, no false negatives (under the provisos): a key added under a
region that truly overlaps the query — both regions having nonnegative
dimensions and nonempty clamped bucket ranges — is returned by `find`. -/
theorem gridHash_no_false_negative {K : Type} [DecidableEq K]
    (field : Region) (d : ℕ) (entries : List (K × Region)) (k : K)
    (r q : Region) (hmem : (k, r) ∈ entries)
    (hrw : 0 ≤ r.width) (hrh : 0 ≤ r.height)
    (hqw : 0 ≤ q.width) (hqh : 0 ≤ q.height)
    (hover : overlapB r q = true)
    (hrne : getHashes (SpatialHash.create K field d).offsetX
      (SpatialHash.create K field d).offsetY
      (SpatialHash.create K field d).maxIndex
      (SpatialHash.create K field d).size r ≠ [])
    (hqne : getHashes (SpatialHash.create K field d).offsetX
      (SpatialHash.create K field d).offsetY
      (SpatialHash.create K field d).maxIndex
      (SpatialHash.create K field d).size q ≠ []) :
    k ∈ ((SpatialHash.create K field d).addAll entries).find q := by
  obtain ⟨pr0, hpr0⟩ := List.exists_mem_of_ne_nil _ hrne
  obtain ⟨pq0, hpq0⟩ := List.exists_mem_of_ne_nil _ hqne
  obtain ⟨p, hpr, hpq⟩ := exists_common_hash
    (SpatialHash.create K field d).offsetX
    (SpatialHash.create K field d).offsetY
    (SpatialHash.create K field d).maxIndex
    (SpatialHash.create K field d).size r q hrw hrh hqw hqh hover
    ⟨pr0, hpr0⟩ ⟨pq0, hpq0⟩
  unfold SpatialHash.find
  rw [List.mem_flatMap]
  obtain ⟨ho1, ho2, ho3, ho4⟩ :=
    SpatialHash.addAll_params (SpatialHash.create K field d) entries
  rw [ho1, ho2, ho3, ho4]
  exact ⟨p, hpq,
    SpatialHash.mem_objects_addAll (SpatialHash.create K field d)
      entries k r p hmem hpr⟩

/-- Closed-rectangle containment: `inner` lies entirely within `outer`
(the quadtree claim's "region fits within the field"). -/
def containsB (outer inner : Region) : Bool :=
  decide (outer.x ≤ inner.x ∧ inner.x + inner.width ≤ outer.x + outer.width ∧
    outer.y ≤ inner.y ∧ inner.y + inner.height ≤ outer.y + outer.height)

/-- The quadtree's `isInField` helper, verbatim: not (separated on either
axis), i.e. closed-rectangle overlap. -/
def isInField (field region : Region) : Bool :=
  !(decide (field.x + field.width < region.x) ||
    decide (field.x > region.x + region.width) ||
    decide (field.y + field.height < region.y) ||
    decide (field.y > region.y + region.height))

/-- The quadtree's `getIndex`: strict comparison of the region against the
two midlines (the source computes the midlines with float division, exact
on ℚ; note the source's swapped local names `midY`/`midX` are inlined
here).  Returns the quadrant index `0..3` or `-1`. -/
def getIndex (field region : Region) : ℤ :=
  if (region.x : ℚ) < (field.x : ℚ) + (field.width : ℚ) / 2 ∧
      (region.x : ℚ) + (region.width : ℚ) <
        (field.x : ℚ) + (field.width : ℚ) / 2 then
    if (region.y : ℚ) < (field.y : ℚ) + (field.height : ℚ) / 2 ∧
        (region.y : ℚ) + (region.height : ℚ) <
          (field.y : ℚ) + (field.height : ℚ) / 2 then 1
    else if (field.y : ℚ) + (field.height : ℚ) / 2 < (region.y : ℚ) then 2
    else -1
  else if (field.x : ℚ) + (field.width : ℚ) / 2 < (region.x : ℚ) then
    if (region.y : ℚ) < (field.y : ℚ) + (field.height : ℚ) / 2 ∧
        (region.y : ℚ) + (region.height : ℚ) <
          (field.y : ℚ) + (field.height : ℚ) / 2 then 0
    else if (field.y : ℚ) + (field.height : ℚ) / 2 < (region.y : ℚ) then 3
    else -1
  else -1

/-- The subnode rectangle built on split: `sw = Math.round(width / 2)`
(`= ⌊(w + 1) / 2⌋` on integers), nodes ordered top-right, top-left,
bottom-left, bottom-right. -/
def childField (f : Region) (i : ℤ) : Region :=
  if i = 0 then
    ⟨f.x + Int.fdiv (f.width + 1) 2, f.y, Int.fdiv (f.width + 1) 2,
      Int.fdiv (f.height + 1) 2⟩
  else if i = 1 then
    ⟨f.x, f.y, Int.fdiv (f.width + 1) 2, Int.fdiv (f.height + 1) 2⟩
  else if i = 2 then
    ⟨f.x, f.y + Int.fdiv (f.height + 1) 2, Int.fdiv (f.width + 1) 2,
      Int.fdiv (f.height + 1) 2⟩
  else
    ⟨f.x + Int.fdiv (f.width + 1) 2, f.y + Int.fdiv (f.height + 1) 2,
      Int.fdiv (f.width + 1) 2, Int.fdiv (f.height + 1) 2⟩

/-- `objects[key] = region` on a JavaScript object: replace the binding if
the key is present (at its position), append otherwise. -/
def setObject {K : Type} [DecidableEq K] :
    List (K × Region) → K → Region → List (K × Region)
  | [], key, region => [(key, region)]
  | (k0, r0) :: t, key, region =>
    if k0 = key then (key, region) :: t
    else (k0, r0) :: setObject t key region

/-- A quadtree: either an undivided node (`nodes` empty) or a divided one
with four subnodes; both carry the field, the options
(threshold/depth/level), the object map and the count. -/
inductive Quadtree (K : Type) where
  | leaf (field : Region) (threshold depth level : ℤ)
      (objects : List (K × Region)) (count : ℤ)
  | node (field : Region) (threshold depth level : ℤ)
      (objects : List (K × Region)) (count : ℤ)
      (c0 c1 c2 c3 : Quadtree K)

def Quadtree.field {K : Type} : Quadtree K → Region
  | .leaf f _ _ _ _ _ => f
  | .node f _ _ _ _ _ _ _ _ _ => f

def Quadtree.threshold {K : Type} : Quadtree K → ℤ
  | .leaf _ th _ _ _ _ => th
  | .node _ th _ _ _ _ _ _ _ _ => th

def Quadtree.depth {K : Type} : Quadtree K → ℤ
  | .leaf _ _ dp _ _ _ => dp
  | .node _ _ dp _ _ _ _ _ _ _ => dp

def Quadtree.level {K : Type} : Quadtree K → ℤ
  | .leaf _ _ _ lv _ _ => lv
  | .node _ _ _ lv _ _ _ _ _ _ => lv

/-- The redistribution loop of `add`: each stored object whose `getIndex`
is not `-1` is deleted from the map (decrementing the count) and added to
the matching subnode via `addf`; the rest stay, in order.  The result is
the divided node. -/
def redistribute {K : Type} (addf : Quadtree K → K → Region → Quadtree K)
    (f : Region) (th dp lv : ℤ) :
    List (K × Region) → List (K × Region) → ℤ →
    Quadtree K → Quadtree K → Quadtree K → Quadtree K → Quadtree K
  | [], kept, cnt, c0, c1, c2, c3 => Quadtree.node f th dp lv kept cnt c0 c1 c2 c3
  | (k0, r0) :: t, kept, cnt, c0, c1, c2, c3 =>
    if getIndex f r0 = 0 then
      redistribute addf f th dp lv t kept (cnt - 1) (addf c0 k0 r0) c1 c2 c3
    else if getIndex f r0 = 1 then
      redistribute addf f th dp lv t kept (cnt - 1) c0 (addf c1 k0 r0) c2 c3
    else if getIndex f r0 = 2 then
      redistribute addf f th dp lv t kept (cnt - 1) c0 c1 (addf c2 k0 r0) c3
    else if getIndex f r0 = 3 then
      redistribute addf f th dp lv t kept (cnt - 1) c0 c1 c2 (addf c3 k0 r0)
    else redistribute addf f th dp lv t (kept ++ [(k0, r0)]) cnt c0 c1 c2 c3

/-- `Quadtree.add`, fuelled: the fuel only bounds the delegation depth
(each recursive call is one level deeper, and subnodes are only created
while `level < depth`, so `(depth - level) + 1` steps always suffice; the
wrapper `Quadtree.add` supplies exactly that).  Mirrors the source: drop
the region if it misses the field; with subnodes and a quadrant index,
delegate; otherwise store it, and when the count exceeds the threshold
within the depth limit, split (if undivided) and redistribute. -/
def addFuel {K : Type} [DecidableEq K] :
    ℕ → Quadtree K → K → Region → Quadtree K
  | 0, t, _, _ => t
  | fuel + 1, Quadtree.leaf f th dp lv objs cnt, key, region =>
    if isInField f region = false then Quadtree.leaf f th dp lv objs cnt
    else if cnt + 1 > th ∧ lv < dp then
      redistribute (fun c kk rr => addFuel fuel c kk rr) f th dp lv
        (setObject objs key region) [] (cnt + 1)
        (Quadtree.leaf (childField f 0) th dp (lv + 1) [] 0)
        (Quadtree.leaf (childField f 1) th dp (lv + 1) [] 0)
        (Quadtree.leaf (childField f 2) th dp (lv + 1) [] 0)
        (Quadtree.leaf (childField f 3) th dp (lv + 1) [] 0)
    else Quadtree.leaf f th dp lv (setObject objs key region) (cnt + 1)
  | fuel + 1, Quadtree.node f th dp lv objs cnt c0 c1 c2 c3, key, region =>
    if isInField f region = false then
      Quadtree.node f th dp lv objs cnt c0 c1 c2 c3
    else if getIndex f region = 0 then
      Quadtree.node f th dp lv objs cnt (addFuel fuel c0 key region) c1 c2 c3
    else if getIndex f region = 1 then
      Quadtree.node f th dp lv objs cnt c0 (addFuel fuel c1 key region) c2 c3
    else if getIndex f region = 2 then
      Quadtree.node f th dp lv objs cnt c0 c1 (addFuel fuel c2 key region) c3
    else if getIndex f region = 3 then
      Quadtree.node f th dp lv objs cnt c0 c1 c2 (addFuel fuel c3 key region)
    else if cnt + 1 > th ∧ lv < dp then
      redistribute (fun c kk rr => addFuel fuel c kk rr) f th dp lv
        (setObject objs key region) [] (cnt + 1) c0 c1 c2 c3
    else Quadtree.node f th dp lv (setObject objs key region) (cnt + 1)
      c0 c1 c2 c3

/-- `Quadtree.add`: the fuelled add with its sufficient fuel. -/
def Quadtree.add {K : Type} [DecidableEq K] (t : Quadtree K) (key : K)
    (region : Region) : Quadtree K :=
  addFuel ((t.depth - t.level).toNat + 1) t key region

/-- The quadtree constructor (also the `clear` state): an undivided node
with no objects at level 0. -/
def Quadtree.create (K : Type) (field : Region) (threshold depth : ℤ) :
    Quadtree K :=
  Quadtree.leaf field threshold depth 0 [] 0

/-- `Quadtree.find`: own keys, then — when divided — the matching subnode's
finds if the query has a quadrant index, else every subnode's. -/
def Quadtree.find {K : Type} : Quadtree K → Region → List K
  | Quadtree.leaf f _ _ _ objs _, region =>
    if isInField f region = false then [] else objs.map Prod.fst
  | Quadtree.node f _ _ _ objs _ c0 c1 c2 c3, region =>
    if isInField f region = false then []
    else if getIndex f region = 0 then objs.map Prod.fst ++ c0.find region
    else if getIndex f region = 1 then objs.map Prod.fst ++ c1.find region
    else if getIndex f region = 2 then objs.map Prod.fst ++ c2.find region
    else if getIndex f region = 3 then objs.map Prod.fst ++ c3.find region
    else objs.map Prod.fst ++
      (c0.find region ++ (c1.find region ++ (c2.find region ++ c3.find region)))

/-- A sequence of `add` calls on a quadtree. -/
def Quadtree.addAll {K : Type} [DecidableEq K] (t : Quadtree K)
    (entries : List (K × Region)) : Quadtree K :=
  entries.foldl (fun acc e => acc.add e.1 e.2) t

/-- The key/region pair is stored somewhere in the tree. -/
def Stored {K : Type} : Quadtree K → K → Region → Prop
  | Quadtree.leaf _ _ _ _ objs _, k, r => (k, r) ∈ objs
  | Quadtree.node _ _ _ _ objs _ c0 c1 c2 c3, k, r =>
    (k, r) ∈ objs ∨ Stored c0 k r ∨ Stored c1 k r ∨ Stored c2 k r ∨
      Stored c3 k r

/-- The pair is stored along its `getIndex` chain: at every divided node on
the way it sits in the subnode its own quadrant index selects.  This is
what `find` can reach. -/
def StoredC {K : Type} : Quadtree K → K → Region → Prop
  | Quadtree.leaf _ _ _ _ objs _, k, r => (k, r) ∈ objs
  | Quadtree.node f _ _ _ objs _ c0 c1 c2 c3, k, r =>
    (k, r) ∈ objs ∨
    (getIndex f r = 0 ∧ StoredC c0 k r) ∨
    (getIndex f r = 1 ∧ StoredC c1 k r) ∨
    (getIndex f r = 2 ∧ StoredC c2 k r) ∨
    (getIndex f r = 3 ∧ StoredC c3 k r)

/-- A subnode is in place: the quadrant rectangle, the parent's depth, one
level further down. -/
def SubOk {K : Type} (f : Region) (dp lv i : ℤ) (c : Quadtree K) : Prop :=
  c.field = childField f i ∧ c.depth = dp ∧ c.level = lv + 1

/-- Structural invariant of every tree reachable from the constructor:
divided nodes were split within the depth limit and their subnodes are the
four quadrant trees. -/
def TreeInv {K : Type} : Quadtree K → Prop
  | Quadtree.leaf _ _ _ _ _ _ => True
  | Quadtree.node f _ dp lv _ _ c0 c1 c2 c3 =>
    lv < dp ∧ SubOk f dp lv 0 c0 ∧ SubOk f dp lv 1 c1 ∧ SubOk f dp lv 2 c2 ∧
      SubOk f dp lv 3 c3 ∧ TreeInv c0 ∧ TreeInv c1 ∧ TreeInv c2 ∧ TreeInv c3

/-- Doubled-integer forms of `getIndex`'s strict midline comparisons. -/
def inTop (f r : Region) : Prop :=
  2 * r.y < 2 * f.y + f.height ∧ 2 * (r.y + r.height) < 2 * f.y + f.height

def inBottom (f r : Region) : Prop := 2 * f.y + f.height < 2 * r.y

def inLeft (f r : Region) : Prop :=
  2 * r.x < 2 * f.x + f.width ∧ 2 * (r.x + r.width) < 2 * f.x + f.width

def inRight (f r : Region) : Prop := 2 * f.x + f.width < 2 * r.x

theorem half_lt_iff (a b c : ℤ) :
    ((a : ℚ) < (b : ℚ) + (c : ℚ) / 2) ↔ 2 * a < 2 * b + c := by
  constructor
  · intro h
    have h2 : ((2 * a : ℤ) : ℚ) < ((2 * b + c : ℤ) : ℚ) := by
      push_cast
      linarith
    exact_mod_cast h2
  · intro h
    have h2 : ((2 * a : ℤ) : ℚ) < ((2 * b + c : ℤ) : ℚ) := by
      exact_mod_cast h
    push_cast at h2
    linarith

theorem half_gt_iff (a b c : ℤ) :
    ((b : ℚ) + (c : ℚ) / 2 < (a : ℚ)) ↔ 2 * b + c < 2 * a := by
  constructor
  · intro h
    have h2 : ((2 * b + c : ℤ) : ℚ) < ((2 * a : ℤ) : ℚ) := by
      push_cast
      linarith
    exact_mod_cast h2
  · intro h
    have h2 : ((2 * b + c : ℤ) : ℚ) < ((2 * a : ℤ) : ℚ) := by
      exact_mod_cast h
    push_cast at h2
    linarith

theorem getIndex_eq_cases (f r : Region) :
    getIndex f r = -1 ∨ getIndex f r = 0 ∨ getIndex f r = 1 ∨
      getIndex f r = 2 ∨ getIndex f r = 3 := by
  unfold getIndex
  split_ifs <;> omega

theorem getIndex_eq_zero_iff (f r : Region) :
    getIndex f r = 0 ↔ inRight f r ∧ inTop f r := by
  unfold getIndex inRight inTop
  simp only [← Int.cast_add, half_lt_iff, half_gt_iff]
  split_ifs <;> constructor <;> intro h <;> first | exact h.elim | omega

theorem getIndex_eq_one_iff (f r : Region) :
    getIndex f r = 1 ↔ inLeft f r ∧ inTop f r := by
  unfold getIndex inLeft inTop
  simp only [← Int.cast_add, half_lt_iff, half_gt_iff]
  split_ifs <;> constructor <;> intro h <;> first | exact h.elim | omega

theorem getIndex_eq_two_iff (f r : Region) :
    getIndex f r = 2 ↔ inLeft f r ∧ inBottom f r := by
  unfold getIndex inLeft inBottom
  simp only [← Int.cast_add, half_lt_iff, half_gt_iff]
  split_ifs <;> constructor <;> intro h <;> first | exact h.elim | omega

theorem getIndex_eq_three_iff (f r : Region) :
    getIndex f r = 3 ↔ inRight f r ∧ inBottom f r := by
  unfold getIndex inRight inBottom
  simp only [← Int.cast_add, half_lt_iff, half_gt_iff]
  split_ifs <;> constructor <;> intro h <;> first | exact h.elim | omega

/-- Two regions with distinct quadrant indices (both not `-1`) lie strictly
on opposite sides of a midline, so they cannot overlap. -/
theorem overlapB_false_of_getIndex_ne (f r q : Region)
    (hr : getIndex f r ≠ -1) (hq : getIndex f q ≠ -1)
    (hne : getIndex f r ≠ getIndex f q) : overlapB r q = false := by
  simp only [overlapB, decide_eq_false_iff_not]
  rintro ⟨o1, o2, o3, o4⟩
  unfold getIndex at hr hq hne
  simp only [← Int.cast_add, half_lt_iff, half_gt_iff] at hr hq hne
  split_ifs at hr hq hne <;> omega

theorem sw_bounds (w : ℤ) :
    w ≤ 2 * Int.fdiv (w + 1) 2 ∧ 2 * Int.fdiv (w + 1) 2 ≤ w + 1 := by
  rw [Int.fdiv_eq_ediv _ (by norm_num : (0 : ℤ) ≤ 2)]
  omega

/-- A region contained in the field with a quadrant index is contained in
that quadrant's subnode rectangle. -/
theorem containsB_childField (f r : Region)
    (hc : containsB f r = true) (hne : getIndex f r ≠ -1) :
    containsB (childField f (getIndex f r)) r = true := by
  simp only [containsB, decide_eq_true_eq] at hc
  obtain ⟨hc1, hc2, hc3, hc4⟩ := hc
  obtain ⟨hw1, hw2⟩ := sw_bounds f.width
  obtain ⟨hh1, hh2⟩ := sw_bounds f.height
  rcases getIndex_eq_cases f r with h | h | h | h | h
  · exact absurd h hne
  · obtain ⟨hR, hT⟩ := (getIndex_eq_zero_iff f r).mp h
    unfold inRight at hR
    unfold inTop at hT
    rw [h]
    simp only [childField, containsB, decide_eq_true_eq]
    norm_num
    omega
  · obtain ⟨hL, hT⟩ := (getIndex_eq_one_iff f r).mp h
    unfold inLeft at hL
    unfold inTop at hT
    rw [h]
    simp only [childField, containsB, decide_eq_true_eq]
    norm_num
    omega
  · obtain ⟨hL, hB⟩ := (getIndex_eq_two_iff f r).mp h
    unfold inLeft at hL
    unfold inBottom at hB
    rw [h]
    simp only [childField, containsB, decide_eq_true_eq]
    norm_num
    omega
  · obtain ⟨hR, hB⟩ := (getIndex_eq_three_iff f r).mp h
    unfold inRight at hR
    unfold inBottom at hB
    rw [h]
    simp only [childField, containsB, decide_eq_true_eq]
    norm_num
    omega

theorem overlapB_of_containsB (cf r q : Region) (hc : containsB cf r = true)
    (ho : overlapB r q = true) : overlapB cf q = true := by
  simp only [containsB, overlapB, decide_eq_true_eq] at hc ho ⊢
  omega

theorem isInField_true_iff (f r : Region) :
    isInField f r = true ↔ overlapB f r = true := by
  simp only [isInField, overlapB, Bool.not_eq_true', Bool.or_eq_false_iff,
    decide_eq_false_iff_not, decide_eq_true_eq, not_lt, gt_iff_lt]
  omega

theorem isInField_of_containsB (f r : Region) (hc : containsB f r = true)
    (hrw : 0 ≤ r.width) (hrh : 0 ≤ r.height) : isInField f r = true := by
  rw [isInField_true_iff]
  simp only [containsB, overlapB, decide_eq_true_eq] at hc ⊢
  omega

theorem TreeInv_leaf {K : Type} (f : Region) (th dp lv : ℤ)
    (objs : List (K × Region)) (cnt : ℤ) :
    TreeInv (Quadtree.leaf f th dp lv objs cnt) := by
  simp only [TreeInv]

theorem setObject_mem_self {K : Type} [DecidableEq K]
    (objs : List (K × Region)) (key : K) (region : Region) :
    (key, region) ∈ setObject objs key region := by
  induction objs with
  | nil => simp [setObject]
  | cons e t ih =>
    obtain ⟨k0, r0⟩ := e
    simp only [setObject]
    split_ifs with h
    · exact List.mem_cons_self _ _
    · exact List.mem_cons_of_mem _ ih

theorem setObject_sub {K : Type} [DecidableEq K]
    (objs : List (K × Region)) (key k3 : K) (region r3 : Region)
    (h : (k3, r3) ∈ setObject objs key region) :
    (k3, r3) ∈ objs ∨ (k3 = key ∧ r3 = region) := by
  induction objs with
  | nil =>
    simp only [setObject, List.mem_singleton, Prod.mk.injEq] at h
    exact Or.inr h
  | cons e t ih =>
    obtain ⟨k0, r0⟩ := e
    simp only [setObject] at h
    split_ifs at h with hk
    · rcases List.mem_cons.mp h with he | ht
      · exact Or.inr ⟨congrArg Prod.fst he, congrArg Prod.snd he⟩
      · exact Or.inl (List.mem_cons_of_mem _ ht)
    · rcases List.mem_cons.mp h with he | ht
      · exact Or.inl (List.mem_cons.mpr (Or.inl he))
      · rcases ih ht with h1 | h2
        · exact Or.inl (List.mem_cons_of_mem _ h1)
        · exact Or.inr h2

theorem setObject_mem_of_ne {K : Type} [DecidableEq K]
    (objs : List (K × Region)) (key k3 : K) (region r3 : Region)
    (hne : k3 ≠ key) (h : (k3, r3) ∈ objs) :
    (k3, r3) ∈ setObject objs key region := by
  induction objs with
  | nil => cases h
  | cons e t ih =>
    obtain ⟨k0, r0⟩ := e
    simp only [setObject]
    split_ifs with hk
    · rcases List.mem_cons.mp h with he | ht
      · exact absurd ((congrArg Prod.fst he).trans hk) hne
      · exact List.mem_cons_of_mem _ ht
    · rcases List.mem_cons.mp h with he | ht
      · exact List.mem_cons.mpr (Or.inl he)
      · exact List.mem_cons_of_mem _ (ih ht)

theorem redistribute_meta {K : Type}
    (addf : Quadtree K → K → Region → Quadtree K) (f : Region)
    (th dp lv : ℤ) :
    ∀ (l kept : List (K × Region)) (cnt : ℤ) (c0 c1 c2 c3 : Quadtree K),
      (redistribute addf f th dp lv l kept cnt c0 c1 c2 c3).field = f ∧
      (redistribute addf f th dp lv l kept cnt c0 c1 c2 c3).depth = dp ∧
      (redistribute addf f th dp lv l kept cnt c0 c1 c2 c3).level = lv := by
  intro l
  induction l with
  | nil =>
    intro kept cnt c0 c1 c2 c3
    simp only [redistribute]
    exact ⟨rfl, rfl, rfl⟩
  | cons e t ih =>
    intro kept cnt c0 c1 c2 c3
    obtain ⟨k0, r0⟩ := e
    simp only [redistribute]
    split_ifs <;> apply ih

theorem addFuel_meta {K : Type} [DecidableEq K] (fuel : ℕ) :
    ∀ (t : Quadtree K) (k2 : K) (r2 : Region),
      (addFuel fuel t k2 r2).field = t.field ∧
      (addFuel fuel t k2 r2).depth = t.depth ∧
      (addFuel fuel t k2 r2).level = t.level := by
  induction fuel with
  | zero => intro t k2 r2; cases t <;> exact ⟨rfl, rfl, rfl⟩
  | succ n ih =>
    intro t k2 r2
    cases t with
    | leaf f th dp lv objs cnt =>
      simp only [addFuel]
      split_ifs
      · exact ⟨rfl, rfl, rfl⟩
      · exact redistribute_meta _ f th dp lv _ _ _ _ _ _ _
      · exact ⟨rfl, rfl, rfl⟩
    | node f th dp lv objs cnt c0 c1 c2 c3 =>
      simp only [addFuel]
      split_ifs <;>
        first
        | exact ⟨rfl, rfl, rfl⟩
        | exact redistribute_meta _ f th dp lv _ _ _ _ _ _ _

theorem SubOk_of_meta {K : Type} (f : Region) (dp lv i : ℤ)
    (c c' : Quadtree K) (hs : SubOk f dp lv i c)
    (hf : c'.field = c.field) (hd : c'.depth = c.depth)
    (hl : c'.level = c.level) : SubOk f dp lv i c' :=
  ⟨hf.trans hs.1, hd.trans hs.2.1, hl.trans hs.2.2⟩

theorem redistribute_inv {K : Type}
    (addf : Quadtree K → K → Region → Quadtree K)
    (hmeta : ∀ (c : Quadtree K) (k2 : K) (r2 : Region),
      (addf c k2 r2).field = c.field ∧ (addf c k2 r2).depth = c.depth ∧
      (addf c k2 r2).level = c.level)
    (hinv : ∀ (c : Quadtree K) (k2 : K) (r2 : Region),
      TreeInv c → TreeInv (addf c k2 r2))
    (f : Region) (th dp lv : ℤ) (hlv : lv < dp) :
    ∀ (l kept : List (K × Region)) (cnt : ℤ) (c0 c1 c2 c3 : Quadtree K),
      SubOk f dp lv 0 c0 → SubOk f dp lv 1 c1 → SubOk f dp lv 2 c2 →
      SubOk f dp lv 3 c3 → TreeInv c0 → TreeInv c1 → TreeInv c2 →
      TreeInv c3 →
      TreeInv (redistribute addf f th dp lv l kept cnt c0 c1 c2 c3) := by
  intro l
  induction l with
  | nil =>
    intro kept cnt c0 c1 c2 c3 hs0 hs1 hs2 hs3 h0 h1 h2 h3
    simp only [redistribute, TreeInv]
    exact ⟨hlv, hs0, hs1, hs2, hs3, h0, h1, h2, h3⟩
  | cons e t ih =>
    intro kept cnt c0 c1 c2 c3 hs0 hs1 hs2 hs3 h0 h1 h2 h3
    obtain ⟨k0, r0⟩ := e
    simp only [redistribute]
    split_ifs
    · exact ih _ _ _ _ _ _
        (SubOk_of_meta f dp lv 0 c0 _ hs0 (hmeta c0 k0 r0).1
          (hmeta c0 k0 r0).2.1 (hmeta c0 k0 r0).2.2)
        hs1 hs2 hs3 (hinv c0 k0 r0 h0) h1 h2 h3
    · exact ih _ _ _ _ _ _ hs0
        (SubOk_of_meta f dp lv 1 c1 _ hs1 (hmeta c1 k0 r0).1
          (hmeta c1 k0 r0).2.1 (hmeta c1 k0 r0).2.2)
        hs2 hs3 h0 (hinv c1 k0 r0 h1) h2 h3
    · exact ih _ _ _ _ _ _ hs0 hs1
        (SubOk_of_meta f dp lv 2 c2 _ hs2 (hmeta c2 k0 r0).1
          (hmeta c2 k0 r0).2.1 (hmeta c2 k0 r0).2.2)
        hs3 h0 h1 (hinv c2 k0 r0 h2) h3
    · exact ih _ _ _ _ _ _ hs0 hs1 hs2
        (SubOk_of_meta f dp lv 3 c3 _ hs3 (hmeta c3 k0 r0).1
          (hmeta c3 k0 r0).2.1 (hmeta c3 k0 r0).2.2)
        h0 h1 h2 (hinv c3 k0 r0 h3)
    · exact ih _ _ _ _ _ _ hs0 hs1 hs2 hs3 h0 h1 h2 h3

theorem addFuel_inv {K : Type} [DecidableEq K] (fuel : ℕ) :
    ∀ (t : Quadtree K) (k2 : K) (r2 : Region),
      TreeInv t → TreeInv (addFuel fuel t k2 r2) := by
  induction fuel with
  | zero => intro t k2 r2 h; exact h
  | succ n ih =>
    intro t k2 r2 h
    cases t with
    | leaf f th dp lv objs cnt =>
      simp only [addFuel]
      split_ifs with h1 h2
      · exact h
      · exact redistribute_inv _ (addFuel_meta n) (fun c kk rr hc => ih c kk rr hc)
          f th dp lv h2.2 _ _ _ _ _ _ _ ⟨rfl, rfl, rfl⟩ ⟨rfl, rfl, rfl⟩
          ⟨rfl, rfl, rfl⟩ ⟨rfl, rfl, rfl⟩ (TreeInv_leaf _ _ _ _ _ _)
          (TreeInv_leaf _ _ _ _ _ _) (TreeInv_leaf _ _ _ _ _ _)
          (TreeInv_leaf _ _ _ _ _ _)
      · exact TreeInv_leaf _ _ _ _ _ _
    | node f th dp lv objs cnt c0 c1 c2 c3 =>
      simp only [TreeInv] at h
      obtain ⟨hlv, hs0, hs1, hs2, hs3, h0, h1, h2, h3⟩ := h
      simp only [addFuel]
      split_ifs
      · simp only [TreeInv]
        exact ⟨hlv, hs0, hs1, hs2, hs3, h0, h1, h2, h3⟩
      · simp only [TreeInv]
        exact ⟨hlv, SubOk_of_meta f dp lv 0 c0 _ hs0 (addFuel_meta n c0 k2 r2).1
          (addFuel_meta n c0 k2 r2).2.1 (addFuel_meta n c0 k2 r2).2.2,
          hs1, hs2, hs3, ih c0 k2 r2 h0, h1, h2, h3⟩
      · simp only [TreeInv]
        exact ⟨hlv, hs0, SubOk_of_meta f dp lv 1 c1 _ hs1
          (addFuel_meta n c1 k2 r2).1 (addFuel_meta n c1 k2 r2).2.1
          (addFuel_meta n c1 k2 r2).2.2, hs2, hs3, h0, ih c1 k2 r2 h1, h2, h3⟩
      · simp only [TreeInv]
        exact ⟨hlv, hs0, hs1, SubOk_of_meta f dp lv 2 c2 _ hs2
          (addFuel_meta n c2 k2 r2).1 (addFuel_meta n c2 k2 r2).2.1
          (addFuel_meta n c2 k2 r2).2.2, hs3, h0, h1, ih c2 k2 r2 h2, h3⟩
      · simp only [TreeInv]
        exact ⟨hlv, hs0, hs1, hs2, SubOk_of_meta f dp lv 3 c3 _ hs3
          (addFuel_meta n c3 k2 r2).1 (addFuel_meta n c3 k2 r2).2.1
          (addFuel_meta n c3 k2 r2).2.2, h0, h1, h2, ih c3 k2 r2 h3⟩
      · exact redistribute_inv _ (addFuel_meta n) (fun c kk rr hc => ih c kk rr hc)
          f th dp lv hlv _ _ _ _ _ _ _ hs0 hs1 hs2 hs3 h0 h1 h2 h3
      · simp only [TreeInv]
        exact ⟨hlv, hs0, hs1, hs2, hs3, h0, h1, h2, h3⟩

theorem redistribute_stored_sub {K : Type}
    (addf : Quadtree K → K → Region → Quadtree K)
    (hsub : ∀ (c : Quadtree K) (k2 k3 : K) (r2 r3 : Region),
      Stored (addf c k2 r2) k3 r3 → Stored c k3 r3 ∨ (k3 = k2 ∧ r3 = r2))
    (f : Region) (th dp lv : ℤ) :
    ∀ (l kept : List (K × Region)) (cnt : ℤ)
      (c0 c1 c2 c3 : Quadtree K) (k3 : K) (r3 : Region),
      Stored (redistribute addf f th dp lv l kept cnt c0 c1 c2 c3) k3 r3 →
      (k3, r3) ∈ l ∨ (k3, r3) ∈ kept ∨ Stored c0 k3 r3 ∨ Stored c1 k3 r3 ∨
        Stored c2 k3 r3 ∨ Stored c3 k3 r3 := by
  intro l
  induction l with
  | nil =>
    intro kept cnt c0 c1 c2 c3 k3 r3 h
    simp only [redistribute, Stored] at h
    tauto
  | cons e t ih =>
    intro kept cnt c0 c1 c2 c3 k3 r3 h
    obtain ⟨k0, r0⟩ := e
    simp only [redistribute] at h
    split_ifs at h
    · rcases ih _ _ _ _ _ _ _ _ h with h' | h' | h' | h' | h' | h'
      · exact Or.inl (List.mem_cons_of_mem _ h')
      · exact Or.inr (Or.inl h')
      · rcases hsub _ _ _ _ _ h' with h'' | ⟨rfl, rfl⟩
        · tauto
        · exact Or.inl (List.mem_cons_self _ _)
      · tauto
      · tauto
      · tauto
    · rcases ih _ _ _ _ _ _ _ _ h with h' | h' | h' | h' | h' | h'
      · exact Or.inl (List.mem_cons_of_mem _ h')
      · exact Or.inr (Or.inl h')
      · tauto
      · rcases hsub _ _ _ _ _ h' with h'' | ⟨rfl, rfl⟩
        · tauto
        · exact Or.inl (List.mem_cons_self _ _)
      · tauto
      · tauto
    · rcases ih _ _ _ _ _ _ _ _ h with h' | h' | h' | h' | h' | h'
      · exact Or.inl (List.mem_cons_of_mem _ h')
      · exact Or.inr (Or.inl h')
      · tauto
      · tauto
      · rcases hsub _ _ _ _ _ h' with h'' | ⟨rfl, rfl⟩
        · tauto
        · exact Or.inl (List.mem_cons_self _ _)
      · tauto
    · rcases ih _ _ _ _ _ _ _ _ h with h' | h' | h' | h' | h' | h'
      · exact Or.inl (List.mem_cons_of_mem _ h')
      · exact Or.inr (Or.inl h')
      · tauto
      · tauto
      · tauto
      · rcases hsub _ _ _ _ _ h' with h'' | ⟨rfl, rfl⟩
        · tauto
        · exact Or.inl (List.mem_cons_self _ _)
    · rcases ih _ _ _ _ _ _ _ _ h with h' | h' | h' | h' | h' | h'
      · exact Or.inl (List.mem_cons_of_mem _ h')
      · rcases List.mem_append.mp h' with h'' | h''
        · exact Or.inr (Or.inl h'')
        · exact Or.inl (List.mem_cons.mpr (Or.inl (List.mem_singleton.mp h'')))
      · tauto
      · tauto
      · tauto
      · tauto

theorem containsB_child_of_SubOk {K : Type} (f : Region) (dp lv i : ℤ)
    (c : Quadtree K) (r : Region) (hs : SubOk f dp lv i c)
    (hcont : containsB f r = true) (hgi : getIndex f r = i) (hne : i ≠ -1) :
    containsB c.field r = true := by
  rw [hs.1, ← hgi]
  exact containsB_childField f r hcont (by omega)

/-- During a redistribution the tracked, field-contained pair `(k, r)` stays
reachable: it is either still in the pending list, already among the kept
objects, or coherently stored in the subnode its own quadrant index
selects — provided `addf` (the recursive add) preserves/establishes
coherent storage on the subnodes and every pending entry under key `k`
carries the region `r`. -/
theorem redistribute_storedC {K : Type} [DecidableEq K]
    (addf : Quadtree K → K → Region → Quadtree K)
    (f : Region) (th dp lv : ℤ) (k : K) (r : Region)
    (hcont : containsB f r = true)
    (hmeta : ∀ (c : Quadtree K) (k2 : K) (r2 : Region),
      (addf c k2 r2).field = c.field ∧ (addf c k2 r2).depth = c.depth ∧
      (addf c k2 r2).level = c.level)
    (hinv : ∀ (c : Quadtree K) (k2 : K) (r2 : Region),
      TreeInv c → TreeInv (addf c k2 r2))
    (hsub : ∀ (c : Quadtree K) (k2 k3 : K) (r2 r3 : Region),
      Stored (addf c k2 r2) k3 r3 → Stored c k3 r3 ∨ (k3 = k2 ∧ r3 = r2))
    (hpres : ∀ (c : Quadtree K) (k2 : K) (r2 : Region), k2 ≠ k →
      TreeInv c → StoredC c k r → (∀ r', Stored c k r' → r' = r) →
      containsB c.field r = true → c.depth = dp → c.level = lv + 1 →
      StoredC (addf c k2 r2) k r)
    (hins : ∀ (c : Quadtree K), TreeInv c →
      (∀ r', Stored c k r' → r' = r) → containsB c.field r = true →
      c.depth = dp → c.level = lv + 1 → StoredC (addf c k r) k r) :
    ∀ (l kept : List (K × Region)) (cnt : ℤ) (c0 c1 c2 c3 : Quadtree K),
      (∀ e ∈ l, e.1 = k → e.2 = r) →
      SubOk f dp lv 0 c0 → SubOk f dp lv 1 c1 → SubOk f dp lv 2 c2 →
      SubOk f dp lv 3 c3 →
      TreeInv c0 → TreeInv c1 → TreeInv c2 → TreeInv c3 →
      (∀ r', Stored c0 k r' → r' = r) → (∀ r', Stored c1 k r' → r' = r) →
      (∀ r', Stored c2 k r' → r' = r) → (∀ r', Stored c3 k r' → r' = r) →
      ((k, r) ∈ l ∨ (k, r) ∈ kept ∨
        (getIndex f r = 0 ∧ StoredC c0 k r) ∨
        (getIndex f r = 1 ∧ StoredC c1 k r) ∨
        (getIndex f r = 2 ∧ StoredC c2 k r) ∨
        (getIndex f r = 3 ∧ StoredC c3 k r)) →
      StoredC (redistribute addf f th dp lv l kept cnt c0 c1 c2 c3) k r := by
  intro l
  induction l with
  | nil =>
    intro kept cnt c0 c1 c2 c3 hL hs0 hs1 hs2 hs3 h0 h1 h2 h3 ho0 ho1 ho2
      ho3 htr
    simp only [redistribute, StoredC]
    rcases htr with h | h | h | h | h | h
    · cases h
    · exact Or.inl h
    · exact Or.inr (Or.inl h)
    · exact Or.inr (Or.inr (Or.inl h))
    · exact Or.inr (Or.inr (Or.inr (Or.inl h)))
    · exact Or.inr (Or.inr (Or.inr (Or.inr h)))
  | cons e t ih =>
    intro kept cnt c0 c1 c2 c3 hL hs0 hs1 hs2 hs3 h0 h1 h2 h3 ho0 ho1 ho2
      ho3 htr
    obtain ⟨k0, r0⟩ := e
    simp only [redistribute]
    split_ifs with hI0 hI1 hI2 hI3
    · by_cases hk0 : k0 = k
      · have hr0 : r0 = r := hL (k0, r0) (List.mem_cons_self _ _) hk0
        have hgi : getIndex f r = 0 := by rw [← hr0]; exact hI0
        have honly0' : ∀ r', Stored (addf c0 k0 r0) k r' → r' = r := by
          intro r' hst
          rcases hsub c0 k0 k r0 r' hst with h' | ⟨_, hrr⟩
          · exact ho0 r' h'
          · exact hrr.trans hr0
        have hSC0 : StoredC (addf c0 k0 r0) k r := by
          rw [hk0, hr0]
          exact hins c0 h0 ho0
            (containsB_child_of_SubOk f dp lv 0 c0 r hs0 hcont hgi
              (by decide)) hs0.2.1 hs0.2.2
        exact ih _ _ _ _ _ _
          (fun e he hek => hL e (List.mem_cons_of_mem _ he) hek)
          (SubOk_of_meta f dp lv 0 c0 _ hs0 (hmeta c0 k0 r0).1
            (hmeta c0 k0 r0).2.1 (hmeta c0 k0 r0).2.2)
          hs1 hs2 hs3 (hinv c0 k0 r0 h0) h1 h2 h3 honly0' ho1 ho2 ho3
          (Or.inr (Or.inr (Or.inl ⟨hgi, hSC0⟩)))
      · have honly0' : ∀ r', Stored (addf c0 k0 r0) k r' → r' = r := by
          intro r' hst
          rcases hsub c0 k0 k r0 r' hst with h' | ⟨hkk, hrr⟩
          · exact ho0 r' h'
          · exact absurd hkk.symm hk0
        refine ih _ _ _ _ _ _
          (fun e he hek => hL e (List.mem_cons_of_mem _ he) hek)
          (SubOk_of_meta f dp lv 0 c0 _ hs0 (hmeta c0 k0 r0).1
            (hmeta c0 k0 r0).2.1 (hmeta c0 k0 r0).2.2)
          hs1 hs2 hs3 (hinv c0 k0 r0 h0) h1 h2 h3 honly0' ho1 ho2 ho3 ?_
        rcases htr with ht' | ht' | ⟨hgi, hS⟩ | ht' | ht' | ht'
        · rcases List.mem_cons.mp ht' with he | ht''
          · exact absurd (congrArg Prod.fst he).symm hk0
          · exact Or.inl ht''
        · exact Or.inr (Or.inl ht')
        · exact Or.inr (Or.inr (Or.inl ⟨hgi, hpres c0 k0 r0 hk0 h0 hS ho0
            (containsB_child_of_SubOk f dp lv 0 c0 r hs0 hcont hgi
              (by decide)) hs0.2.1 hs0.2.2⟩))
        · exact Or.inr (Or.inr (Or.inr (Or.inl ht')))
        · exact Or.inr (Or.inr (Or.inr (Or.inr (Or.inl ht'))))
        · exact Or.inr (Or.inr (Or.inr (Or.inr (Or.inr ht'))))
    · by_cases hk0 : k0 = k
      · have hr0 : r0 = r := hL (k0, r0) (List.mem_cons_self _ _) hk0
        have hgi : getIndex f r = 1 := by rw [← hr0]; exact hI1
        have honly1' : ∀ r', Stored (addf c1 k0 r0) k r' → r' = r := by
          intro r' hst
          rcases hsub c1 k0 k r0 r' hst with h' | ⟨_, hrr⟩
          · exact ho1 r' h'
          · exact hrr.trans hr0
        have hSC1 : StoredC (addf c1 k0 r0) k r := by
          rw [hk0, hr0]
          exact hins c1 h1 ho1
            (containsB_child_of_SubOk f dp lv 1 c1 r hs1 hcont hgi
              (by decide)) hs1.2.1 hs1.2.2
        exact ih _ _ _ _ _ _
          (fun e he hek => hL e (List.mem_cons_of_mem _ he) hek)
          hs0
          (SubOk_of_meta f dp lv 1 c1 _ hs1 (hmeta c1 k0 r0).1
            (hmeta c1 k0 r0).2.1 (hmeta c1 k0 r0).2.2)
          hs2 hs3 h0 (hinv c1 k0 r0 h1) h2 h3 ho0 honly1' ho2 ho3
          (Or.inr (Or.inr (Or.inr (Or.inl ⟨hgi, hSC1⟩))))
      · have honly1' : ∀ r', Stored (addf c1 k0 r0) k r' → r' = r := by
          intro r' hst
          rcases hsub c1 k0 k r0 r' hst with h' | ⟨hkk, hrr⟩
          · exact ho1 r' h'
          · exact absurd hkk.symm hk0
        refine ih _ _ _ _ _ _
          (fun e he hek => hL e (List.mem_cons_of_mem _ he) hek)
          hs0
          (SubOk_of_meta f dp lv 1 c1 _ hs1 (hmeta c1 k0 r0).1
            (hmeta c1 k0 r0).2.1 (hmeta c1 k0 r0).2.2)
          hs2 hs3 h0 (hinv c1 k0 r0 h1) h2 h3 ho0 honly1' ho2 ho3 ?_
        rcases htr with ht' | ht' | ht' | ⟨hgi, hS⟩ | ht' | ht'
        · rcases List.mem_cons.mp ht' with he | ht''
          · exact absurd (congrArg Prod.fst he).symm hk0
          · exact Or.inl ht''
        · exact Or.inr (Or.inl ht')
        · exact Or.inr (Or.inr (Or.inl ht'))
        · exact Or.inr (Or.inr (Or.inr (Or.inl ⟨hgi, hpres c1 k0 r0 hk0 h1
            hS ho1 (containsB_child_of_SubOk f dp lv 1 c1 r hs1 hcont hgi
              (by decide)) hs1.2.1 hs1.2.2⟩)))
        · exact Or.inr (Or.inr (Or.inr (Or.inr (Or.inl ht'))))
        · exact Or.inr (Or.inr (Or.inr (Or.inr (Or.inr ht'))))
    · by_cases hk0 : k0 = k
      · have hr0 : r0 = r := hL (k0, r0) (List.mem_cons_self _ _) hk0
        have hgi : getIndex f r = 2 := by rw [← hr0]; exact hI2
        have honly2' : ∀ r', Stored (addf c2 k0 r0) k r' → r' = r := by
          intro r' hst
          rcases hsub c2 k0 k r0 r' hst with h' | ⟨_, hrr⟩
          · exact ho2 r' h'
          · exact hrr.trans hr0
        have hSC2 : StoredC (addf c2 k0 r0) k r := by
          rw [hk0, hr0]
          exact hins c2 h2 ho2
            (containsB_child_of_SubOk f dp lv 2 c2 r hs2 hcont hgi
              (by decide)) hs2.2.1 hs2.2.2
        exact ih _ _ _ _ _ _
          (fun e he hek => hL e (List.mem_cons_of_mem _ he) hek)
          hs0 hs1
          (SubOk_of_meta f dp lv 2 c2 _ hs2 (hmeta c2 k0 r0).1
            (hmeta c2 k0 r0).2.1 (hmeta c2 k0 r0).2.2)
          hs3 h0 h1 (hinv c2 k0 r0 h2) h3 ho0 ho1 honly2' ho3
          (Or.inr (Or.inr (Or.inr (Or.inr (Or.inl ⟨hgi, hSC2⟩)))))
      · have honly2' : ∀ r', Stored (addf c2 k0 r0) k r' → r' = r := by
          intro r' hst
          rcases hsub c2 k0 k r0 r' hst with h' | ⟨hkk, hrr⟩
          · exact ho2 r' h'
          · exact absurd hkk.symm hk0
        refine ih _ _ _ _ _ _
          (fun e he hek => hL e (List.mem_cons_of_mem _ he) hek)
          hs0 hs1
          (SubOk_of_meta f dp lv 2 c2 _ hs2 (hmeta c2 k0 r0).1
            (hmeta c2 k0 r0).2.1 (hmeta c2 k0 r0).2.2)
          hs3 h0 h1 (hinv c2 k0 r0 h2) h3 ho0 ho1 honly2' ho3 ?_
        rcases htr with ht' | ht' | ht' | ht' | ⟨hgi, hS⟩ | ht'
        · rcases List.mem_cons.mp ht' with he | ht''
          · exact absurd (congrArg Prod.fst he).symm hk0
          · exact Or.inl ht''
        · exact Or.inr (Or.inl ht')
        · exact Or.inr (Or.inr (Or.inl ht'))
        · exact Or.inr (Or.inr (Or.inr (Or.inl ht')))
        · exact Or.inr (Or.inr (Or.inr (Or.inr (Or.inl ⟨hgi, hpres c2 k0 r0
            hk0 h2 hS ho2 (containsB_child_of_SubOk f dp lv 2 c2 r hs2 hcont
              hgi (by decide)) hs2.2.1 hs2.2.2⟩))))
        · exact Or.inr (Or.inr (Or.inr (Or.inr (Or.inr ht'))))
    · by_cases hk0 : k0 = k
      · have hr0 : r0 = r := hL (k0, r0) (List.mem_cons_self _ _) hk0
        have hgi : getIndex f r = 3 := by rw [← hr0]; exact hI3
        have honly3' : ∀ r', Stored (addf c3 k0 r0) k r' → r' = r := by
          intro r' hst
          rcases hsub c3 k0 k r0 r' hst with h' | ⟨_, hrr⟩
          · exact ho3 r' h'
          · exact hrr.trans hr0
        have hSC3 : StoredC (addf c3 k0 r0) k r := by
          rw [hk0, hr0]
          exact hins c3 h3 ho3
            (containsB_child_of_SubOk f dp lv 3 c3 r hs3 hcont hgi
              (by decide)) hs3.2.1 hs3.2.2
        exact ih _ _ _ _ _ _
          (fun e he hek => hL e (List.mem_cons_of_mem _ he) hek)
          hs0 hs1 hs2
          (SubOk_of_meta f dp lv 3 c3 _ hs3 (hmeta c3 k0 r0).1
            (hmeta c3 k0 r0).2.1 (hmeta c3 k0 r0).2.2)
          h0 h1 h2 (hinv c3 k0 r0 h3) ho0 ho1 ho2 honly3'
          (Or.inr (Or.inr (Or.inr (Or.inr (Or.inr ⟨hgi, hSC3⟩)))))
      · have honly3' : ∀ r', Stored (addf c3 k0 r0) k r' → r' = r := by
          intro r' hst
          rcases hsub c3 k0 k r0 r' hst with h' | ⟨hkk, hrr⟩
          · exact ho3 r' h'
          · exact absurd hkk.symm hk0
        refine ih _ _ _ _ _ _
          (fun e he hek => hL e (List.mem_cons_of_mem _ he) hek)
          hs0 hs1 hs2
          (SubOk_of_meta f dp lv 3 c3 _ hs3 (hmeta c3 k0 r0).1
            (hmeta c3 k0 r0).2.1 (hmeta c3 k0 r0).2.2)
          h0 h1 h2 (hinv c3 k0 r0 h3) ho0 ho1 ho2 honly3' ?_
        rcases htr with ht' | ht' | ht' | ht' | ht' | ⟨hgi, hS⟩
        · rcases List.mem_cons.mp ht' with he | ht''
          · exact absurd (congrArg Prod.fst he).symm hk0
          · exact Or.inl ht''
        · exact Or.inr (Or.inl ht')
        · exact Or.inr (Or.inr (Or.inl ht'))
        · exact Or.inr (Or.inr (Or.inr (Or.inl ht')))
        · exact Or.inr (Or.inr (Or.inr (Or.inr (Or.inl ht'))))
        · exact Or.inr (Or.inr (Or.inr (Or.inr (Or.inr ⟨hgi, hpres c3 k0 r0
            hk0 h3 hS ho3 (containsB_child_of_SubOk f dp lv 3 c3 r hs3 hcont
              hgi (by decide)) hs3.2.1 hs3.2.2⟩))))
    · refine ih _ _ _ _ _ _
        (fun e he hek => hL e (List.mem_cons_of_mem _ he) hek)
        hs0 hs1 hs2 hs3 h0 h1 h2 h3 ho0 ho1 ho2 ho3 ?_
      rcases htr with ht' | ht' | ht' | ht' | ht' | ht'
      · rcases List.mem_cons.mp ht' with he | ht''
        · exact Or.inr (Or.inl (List.mem_append.mpr (Or.inr
            (List.mem_singleton.mpr he))))
        · exact Or.inl ht''
      · exact Or.inr (Or.inl (List.mem_append.mpr (Or.inl ht')))
      · exact Or.inr (Or.inr (Or.inl ht'))
      · exact Or.inr (Or.inr (Or.inr (Or.inl ht')))
      · exact Or.inr (Or.inr (Or.inr (Or.inr (Or.inl ht'))))
      · exact Or.inr (Or.inr (Or.inr (Or.inr (Or.inr ht'))))

theorem addFuel_stored_sub {K : Type} [DecidableEq K] (fuel : ℕ) :
    ∀ (t : Quadtree K) (k2 k3 : K) (r2 r3 : Region),
      Stored (addFuel fuel t k2 r2) k3 r3 →
      Stored t k3 r3 ∨ (k3 = k2 ∧ r3 = r2) := by
  induction fuel with
  | zero => intro t k2 k3 r2 r3 h; exact Or.inl h
  | succ n ih =>
    intro t k2 k3 r2 r3 h
    cases t with
    | leaf f th dp lv objs cnt =>
      simp only [addFuel] at h
      split_ifs at h
      · exact Or.inl h
      · rcases redistribute_stored_sub _
          (fun c ka kb ra rb hs => ih c ka kb ra rb hs) f th dp lv
          _ _ _ _ _ _ _ _ _ h with h' | h' | h' | h' | h' | h'
        · rcases setObject_sub _ _ _ _ _ h' with h'' | h''
          · exact Or.inl (by simp only [Stored]; exact h'')
          · exact Or.inr h''
        · cases h'
        · simp only [Stored] at h'; cases h'
        · simp only [Stored] at h'; cases h'
        · simp only [Stored] at h'; cases h'
        · simp only [Stored] at h'; cases h'
      · simp only [Stored] at h
        rcases setObject_sub _ _ _ _ _ h with h'' | h''
        · exact Or.inl (by simp only [Stored]; exact h'')
        · exact Or.inr h''
    | node f th dp lv objs cnt c0 c1 c2 c3 =>
      simp only [addFuel] at h
      split_ifs at h
      · exact Or.inl h
      · simp only [Stored] at h ⊢
        rcases h with h | h | h | h | h
        · tauto
        · rcases ih _ _ _ _ _ h with h' | h'
          · tauto
          · exact Or.inr h'
        · tauto
        · tauto
        · tauto
      · simp only [Stored] at h ⊢
        rcases h with h | h | h | h | h
        · tauto
        · tauto
        · rcases ih _ _ _ _ _ h with h' | h'
          · tauto
          · exact Or.inr h'
        · tauto
        · tauto
      · simp only [Stored] at h ⊢
        rcases h with h | h | h | h | h
        · tauto
        · tauto
        · tauto
        · rcases ih _ _ _ _ _ h with h' | h'
          · tauto
          · exact Or.inr h'
        · tauto
      · simp only [Stored] at h ⊢
        rcases h with h | h | h | h | h
        · tauto
        · tauto
        · tauto
        · tauto
        · rcases ih _ _ _ _ _ h with h' | h'
          · tauto
          · exact Or.inr h'
      · rcases redistribute_stored_sub _
          (fun c ka kb ra rb hs => ih c ka kb ra rb hs) f th dp lv
          _ _ _ _ _ _ _ _ _ h with h' | h' | h' | h' | h' | h'
        · rcases setObject_sub _ _ _ _ _ h' with h'' | h''
          · exact Or.inl (by simp only [Stored]; tauto)
          · exact Or.inr h''
        · cases h'
        · exact Or.inl (by simp only [Stored]; tauto)
        · exact Or.inl (by simp only [Stored]; tauto)
        · exact Or.inl (by simp only [Stored]; tauto)
        · exact Or.inl (by simp only [Stored]; tauto)
      · simp only [Stored] at h ⊢
        rcases h with h | h | h | h | h
        · rcases setObject_sub _ _ _ _ _ h with h'' | h''
          · tauto
          · exact Or.inr h''
        · tauto
        · tauto
        · tauto
        · tauto

/-- The main add lemma, by induction on the fuel: for a field-contained
pair `(k, r)` with nonnegative dimensions, on a well-formed tree whose only
`k`-entries carry `r` and with fuel above the remaining depth, (1) adding
`(k, r)` stores it coherently, and (2) adding any other key preserves its
coherent storage. -/
theorem addFuel_main {K : Type} [DecidableEq K] (k : K) (r : Region)
    (hrw : 0 ≤ r.width) (hrh : 0 ≤ r.height) (fuel : ℕ) :
    ∀ (t : Quadtree K), TreeInv t → (∀ r', Stored t k r' → r' = r) →
      containsB t.field r = true → (t.depth - t.level).toNat < fuel →
      (StoredC (addFuel fuel t k r) k r ∧
        ∀ (k2 : K) (r2 : Region), k2 ≠ k → StoredC t k r →
          StoredC (addFuel fuel t k2 r2) k r) := by
  induction fuel with
  | zero => intro t hTI hOnly hcont hf; exact absurd hf (Nat.not_lt_zero _)
  | succ n ih =>
    intro t hTI hOnly hcont hf
    cases t with
    | leaf f th dp lv objs cnt =>
      simp only [Quadtree.field] at hcont
      simp only [Quadtree.depth, Quadtree.level] at hf
      have hin : isInField f r = true :=
        isInField_of_containsB f r hcont hrw hrh
      have hOnly' : ∀ r', (k, r') ∈ objs → r' = r := fun r' h' =>
        hOnly r' (by simp only [Stored]; exact h')
      constructor
      · simp only [addFuel]
        split_ifs with hin2 hg
        · simp [hin] at hin2
        · have hlvdp : lv < dp := hg.2
          refine redistribute_storedC _ f th dp lv k r hcont
            (addFuel_meta n) (addFuel_inv n)
            (fun c ka kb ra rb hs => addFuel_stored_sub n c ka kb ra rb hs)
            ?_ ?_ _ _ _ _ _ _ _ ?_
            ⟨rfl, rfl, rfl⟩ ⟨rfl, rfl, rfl⟩ ⟨rfl, rfl, rfl⟩ ⟨rfl, rfl, rfl⟩
            (TreeInv_leaf _ _ _ _ _ _) (TreeInv_leaf _ _ _ _ _ _)
            (TreeInv_leaf _ _ _ _ _ _) (TreeInv_leaf _ _ _ _ _ _)
            ?_ ?_ ?_ ?_
            (Or.inl (setObject_mem_self objs k r))
          · intro c ka ra hka hc1 hc2 hc3 hc4 hd hl
            exact (ih c hc1 hc3 hc4 (by rw [hd, hl]; omega)).2 ka ra hka hc2
          · intro c hc1 hc2 hc3 hd hl
            exact (ih c hc1 hc2 hc3 (by rw [hd, hl]; omega)).1
          · rintro ⟨e1, e2⟩ he hek
            have hek' : e1 = k := hek
            rcases setObject_sub objs k e1 r e2 he with h' | h'
            · exact hOnly' e2 (by rw [← hek']; exact h')
            · exact h'.2
          · intro r' hst
            exact absurd (by simpa only [Stored] using hst)
              (List.not_mem_nil _)
          · intro r' hst
            exact absurd (by simpa only [Stored] using hst)
              (List.not_mem_nil _)
          · intro r' hst
            exact absurd (by simpa only [Stored] using hst)
              (List.not_mem_nil _)
          · intro r' hst
            exact absurd (by simpa only [Stored] using hst)
              (List.not_mem_nil _)
        · simp only [StoredC]
          exact setObject_mem_self objs k r
      · intro k2 r2 hk2 hSC
        simp only [StoredC] at hSC
        simp only [addFuel]
        split_ifs with hin2 hg
        · simp only [StoredC]
          exact hSC
        · have hlvdp : lv < dp := hg.2
          refine redistribute_storedC _ f th dp lv k r hcont
            (addFuel_meta n) (addFuel_inv n)
            (fun c ka kb ra rb hs => addFuel_stored_sub n c ka kb ra rb hs)
            ?_ ?_ _ _ _ _ _ _ _ ?_
            ⟨rfl, rfl, rfl⟩ ⟨rfl, rfl, rfl⟩ ⟨rfl, rfl, rfl⟩ ⟨rfl, rfl, rfl⟩
            (TreeInv_leaf _ _ _ _ _ _) (TreeInv_leaf _ _ _ _ _ _)
            (TreeInv_leaf _ _ _ _ _ _) (TreeInv_leaf _ _ _ _ _ _)
            ?_ ?_ ?_ ?_
            (Or.inl (setObject_mem_of_ne objs k2 k r2 r
              (fun h => hk2 h.symm) hSC))
          · intro c ka ra hka hc1 hc2 hc3 hc4 hd hl
            exact (ih c hc1 hc3 hc4 (by rw [hd, hl]; omega)).2 ka ra hka hc2
          · intro c hc1 hc2 hc3 hd hl
            exact (ih c hc1 hc2 hc3 (by rw [hd, hl]; omega)).1
          · rintro ⟨e1, e2⟩ he hek
            have hek' : e1 = k := hek
            rcases setObject_sub objs k2 e1 r2 e2 he with h' | h'
            · exact hOnly' e2 (by rw [← hek']; exact h')
            · exact absurd (hek'.symm.trans h'.1).symm hk2
          · intro r' hst
            exact absurd (by simpa only [Stored] using hst)
              (List.not_mem_nil _)
          · intro r' hst
            exact absurd (by simpa only [Stored] using hst)
              (List.not_mem_nil _)
          · intro r' hst
            exact absurd (by simpa only [Stored] using hst)
              (List.not_mem_nil _)
          · intro r' hst
            exact absurd (by simpa only [Stored] using hst)
              (List.not_mem_nil _)
        · simp only [StoredC]
          exact setObject_mem_of_ne objs k2 k r2 r (fun h => hk2 h.symm) hSC
    | node f th dp lv objs cnt c0 c1 c2 c3 =>
      simp only [Quadtree.field] at hcont
      simp only [Quadtree.depth, Quadtree.level] at hf
      simp only [TreeInv] at hTI
      obtain ⟨hlv, hs0, hs1, hs2, hs3, h0, h1, h2, h3⟩ := hTI
      have hin : isInField f r = true :=
        isInField_of_containsB f r hcont hrw hrh
      have hOnly' : ∀ r', (k, r') ∈ objs → r' = r := fun r' h' =>
        hOnly r' (by simp only [Stored]; exact Or.inl h')
      have hOnly0 : ∀ r', Stored c0 k r' → r' = r := fun r' h' =>
        hOnly r' (by simp only [Stored]; exact Or.inr (Or.inl h'))
      have hOnly1 : ∀ r', Stored c1 k r' → r' = r := fun r' h' =>
        hOnly r' (by simp only [Stored]; exact Or.inr (Or.inr (Or.inl h')))
      have hOnly2 : ∀ r', Stored c2 k r' → r' = r := by
        intro r' h'
        refine hOnly r' ?_
        simp only [Stored]
        exact Or.inr (Or.inr (Or.inr (Or.inl h')))
      have hOnly3 : ∀ r', Stored c3 k r' → r' = r := by
        intro r' h'
        refine hOnly r' ?_
        simp only [Stored]
        exact Or.inr (Or.inr (Or.inr (Or.inr h')))
      have hPRES : ∀ (c : Quadtree K) (ka : K) (ra : Region), ka ≠ k →
          TreeInv c → StoredC c k r → (∀ r', Stored c k r' → r' = r) →
          containsB c.field r = true → c.depth = dp → c.level = lv + 1 →
          StoredC (addFuel n c ka ra) k r := by
        intro c ka ra hka hc1 hc2 hc3 hc4 hd hl
        exact (ih c hc1 hc3 hc4 (by rw [hd, hl]; omega)).2 ka ra hka hc2
      have hINS : ∀ (c : Quadtree K), TreeInv c →
          (∀ r', Stored c k r' → r' = r) → containsB c.field r = true →
          c.depth = dp → c.level = lv + 1 →
          StoredC (addFuel n c k r) k r := by
        intro c hc1 hc2 hc3 hd hl
        exact (ih c hc1 hc2 hc3 (by rw [hd, hl]; omega)).1
      constructor
      · simp only [addFuel]
        split_ifs with hin2 hI0 hI1 hI2 hI3 hg
        · simp [hin] at hin2
        · simp only [StoredC]
          exact Or.inr (Or.inl ⟨hI0, hINS c0 h0 hOnly0
            (containsB_child_of_SubOk f dp lv 0 c0 r hs0 hcont hI0
              (by decide)) hs0.2.1 hs0.2.2⟩)
        · simp only [StoredC]
          exact Or.inr (Or.inr (Or.inl ⟨hI1, hINS c1 h1 hOnly1
            (containsB_child_of_SubOk f dp lv 1 c1 r hs1 hcont hI1
              (by decide)) hs1.2.1 hs1.2.2⟩))
        · simp only [StoredC]
          exact Or.inr (Or.inr (Or.inr (Or.inl ⟨hI2, hINS c2 h2 hOnly2
            (containsB_child_of_SubOk f dp lv 2 c2 r hs2 hcont hI2
              (by decide)) hs2.2.1 hs2.2.2⟩)))
        · simp only [StoredC]
          exact Or.inr (Or.inr (Or.inr (Or.inr ⟨hI3, hINS c3 h3 hOnly3
            (containsB_child_of_SubOk f dp lv 3 c3 r hs3 hcont hI3
              (by decide)) hs3.2.1 hs3.2.2⟩)))
        · refine redistribute_storedC _ f th dp lv k r hcont
            (addFuel_meta n) (addFuel_inv n)
            (fun c ka kb ra rb hs => addFuel_stored_sub n c ka kb ra rb hs)
            hPRES hINS _ _ _ _ _ _ _ ?_ hs0 hs1 hs2 hs3 h0 h1 h2 h3
            hOnly0 hOnly1 hOnly2 hOnly3
            (Or.inl (setObject_mem_self objs k r))
          rintro ⟨e1, e2⟩ he hek
          have hek' : e1 = k := hek
          rcases setObject_sub objs k e1 r e2 he with h' | h'
          · exact hOnly' e2 (by rw [← hek']; exact h')
          · exact h'.2
        · simp only [StoredC]
          exact Or.inl (setObject_mem_self objs k r)
      · intro k2 r2 hk2 hSC
        simp only [StoredC] at hSC
        simp only [addFuel]
        split_ifs with hin2 hI0 hI1 hI2 hI3 hg
        · simp only [StoredC]
          exact hSC
        · simp only [StoredC]
          rcases hSC with hM | ⟨hgi, hS⟩ | ⟨hgi, hS⟩ | ⟨hgi, hS⟩ | ⟨hgi, hS⟩
          · exact Or.inl hM
          · exact Or.inr (Or.inl ⟨hgi, hPRES c0 k2 r2 hk2 h0 hS hOnly0
              (containsB_child_of_SubOk f dp lv 0 c0 r hs0 hcont hgi
                (by decide)) hs0.2.1 hs0.2.2⟩)
          · exact Or.inr (Or.inr (Or.inl ⟨hgi, hS⟩))
          · exact Or.inr (Or.inr (Or.inr (Or.inl ⟨hgi, hS⟩)))
          · exact Or.inr (Or.inr (Or.inr (Or.inr ⟨hgi, hS⟩)))
        · simp only [StoredC]
          rcases hSC with hM | ⟨hgi, hS⟩ | ⟨hgi, hS⟩ | ⟨hgi, hS⟩ | ⟨hgi, hS⟩
          · exact Or.inl hM
          · exact Or.inr (Or.inl ⟨hgi, hS⟩)
          · exact Or.inr (Or.inr (Or.inl ⟨hgi, hPRES c1 k2 r2 hk2 h1 hS
              hOnly1 (containsB_child_of_SubOk f dp lv 1 c1 r hs1 hcont hgi
                (by decide)) hs1.2.1 hs1.2.2⟩))
          · exact Or.inr (Or.inr (Or.inr (Or.inl ⟨hgi, hS⟩)))
          · exact Or.inr (Or.inr (Or.inr (Or.inr ⟨hgi, hS⟩)))
        · simp only [StoredC]
          rcases hSC with hM | ⟨hgi, hS⟩ | ⟨hgi, hS⟩ | ⟨hgi, hS⟩ | ⟨hgi, hS⟩
          · exact Or.inl hM
          · exact Or.inr (Or.inl ⟨hgi, hS⟩)
          · exact Or.inr (Or.inr (Or.inl ⟨hgi, hS⟩))
          · exact Or.inr (Or.inr (Or.inr (Or.inl ⟨hgi, hPRES c2 k2 r2 hk2
              h2 hS hOnly2 (containsB_child_of_SubOk f dp lv 2 c2 r hs2
                hcont hgi (by decide)) hs2.2.1 hs2.2.2⟩)))
          · exact Or.inr (Or.inr (Or.inr (Or.inr ⟨hgi, hS⟩)))
        · simp only [StoredC]
          rcases hSC with hM | ⟨hgi, hS⟩ | ⟨hgi, hS⟩ | ⟨hgi, hS⟩ | ⟨hgi, hS⟩
          · exact Or.inl hM
          · exact Or.inr (Or.inl ⟨hgi, hS⟩)
          · exact Or.inr (Or.inr (Or.inl ⟨hgi, hS⟩))
          · exact Or.inr (Or.inr (Or.inr (Or.inl ⟨hgi, hS⟩)))
          · exact Or.inr (Or.inr (Or.inr (Or.inr ⟨hgi, hPRES c3 k2 r2 hk2
              h3 hS hOnly3 (containsB_child_of_SubOk f dp lv 3 c3 r hs3
                hcont hgi (by decide)) hs3.2.1 hs3.2.2⟩)))
        · refine redistribute_storedC _ f th dp lv k r hcont
            (addFuel_meta n) (addFuel_inv n)
            (fun c ka kb ra rb hs => addFuel_stored_sub n c ka kb ra rb hs)
            hPRES hINS _ _ _ _ _ _ _ ?_ hs0 hs1 hs2 hs3 h0 h1 h2 h3
            hOnly0 hOnly1 hOnly2 hOnly3 ?_
          · rintro ⟨e1, e2⟩ he hek
            have hek' : e1 = k := hek
            rcases setObject_sub objs k2 e1 r2 e2 he with h' | h'
            · exact hOnly' e2 (by rw [← hek']; exact h')
            · exact absurd (hek'.symm.trans h'.1).symm hk2
          · rcases hSC with hM | hd0 | hd1 | hd2 | hd3
            · exact Or.inl (setObject_mem_of_ne objs k2 k r2 r
                (fun h => hk2 h.symm) hM)
            · exact Or.inr (Or.inr (Or.inl hd0))
            · exact Or.inr (Or.inr (Or.inr (Or.inl hd1)))
            · exact Or.inr (Or.inr (Or.inr (Or.inr (Or.inl hd2))))
            · exact Or.inr (Or.inr (Or.inr (Or.inr (Or.inr hd3))))
        · simp only [StoredC]
          rcases hSC with hM | hd0 | hd1 | hd2 | hd3
          · exact Or.inl (setObject_mem_of_ne objs k2 k r2 r
              (fun h => hk2 h.symm) hM)
          · exact Or.inr (Or.inl hd0)
          · exact Or.inr (Or.inr (Or.inl hd1))
          · exact Or.inr (Or.inr (Or.inr (Or.inl hd2)))
          · exact Or.inr (Or.inr (Or.inr (Or.inr hd3)))

theorem Quadtree.add_storedC {K : Type} [DecidableEq K] (t : Quadtree K)
    (k : K) (r : Region) (hrw : 0 ≤ r.width) (hrh : 0 ≤ r.height)
    (hTI : TreeInv t) (hOnly : ∀ r', Stored t k r' → r' = r)
    (hcont : containsB t.field r = true) : StoredC (t.add k r) k r :=
  (addFuel_main k r hrw hrh ((t.depth - t.level).toNat + 1) t hTI hOnly
    hcont (Nat.lt_succ_self _)).1

theorem Quadtree.add_pres {K : Type} [DecidableEq K] (t : Quadtree K)
    (k k2 : K) (r r2 : Region) (hrw : 0 ≤ r.width) (hrh : 0 ≤ r.height)
    (hk2 : k2 ≠ k) (hTI : TreeInv t) (hSC : StoredC t k r)
    (hOnly : ∀ r', Stored t k r' → r' = r)
    (hcont : containsB t.field r = true) : StoredC (t.add k2 r2) k r :=
  (addFuel_main k r hrw hrh ((t.depth - t.level).toNat + 1) t hTI hOnly
    hcont (Nat.lt_succ_self _)).2 k2 r2 hk2 hSC

theorem Quadtree.add_meta {K : Type} [DecidableEq K] (t : Quadtree K)
    (k2 : K) (r2 : Region) :
    (t.add k2 r2).field = t.field ∧ (t.add k2 r2).depth = t.depth ∧
      (t.add k2 r2).level = t.level :=
  addFuel_meta ((t.depth - t.level).toNat + 1) t k2 r2

theorem Quadtree.add_inv {K : Type} [DecidableEq K] (t : Quadtree K)
    (k2 : K) (r2 : Region) (h : TreeInv t) : TreeInv (t.add k2 r2) :=
  addFuel_inv ((t.depth - t.level).toNat + 1) t k2 r2 h

theorem Quadtree.add_stored_sub {K : Type} [DecidableEq K] (t : Quadtree K)
    (k2 k3 : K) (r2 r3 : Region) (h : Stored (t.add k2 r2) k3 r3) :
    Stored t k3 r3 ∨ (k3 = k2 ∧ r3 = r2) :=
  addFuel_stored_sub ((t.depth - t.level).toNat + 1) t k2 k3 r2 r3 h

theorem Quadtree.addAll_inv_meta {K : Type} [DecidableEq K] :
    ∀ (entries : List (K × Region)) (t : Quadtree K), TreeInv t →
      (TreeInv (t.addAll entries) ∧ (t.addAll entries).field = t.field ∧
        (t.addAll entries).depth = t.depth ∧
        (t.addAll entries).level = t.level) := by
  intro entries
  induction entries with
  | nil => intro t h; exact ⟨h, rfl, rfl, rfl⟩
  | cons e rest ih =>
    intro t h
    have hstep : TreeInv (t.add e.1 e.2) := Quadtree.add_inv t e.1 e.2 h
    have hmeta := Quadtree.add_meta t e.1 e.2
    obtain ⟨hrec, hf, hd, hl⟩ := ih (t.add e.1 e.2) hstep
    exact ⟨hrec, hf.trans hmeta.1, hd.trans hmeta.2.1, hl.trans hmeta.2.2⟩

theorem Quadtree.addAll_stored_sub {K : Type} [DecidableEq K] :
    ∀ (entries : List (K × Region)) (t : Quadtree K) (k3 : K)
      (r3 : Region), Stored (t.addAll entries) k3 r3 →
      Stored t k3 r3 ∨ (k3, r3) ∈ entries := by
  intro entries
  induction entries with
  | nil => intro t k3 r3 h; exact Or.inl h
  | cons e rest ih =>
    obtain ⟨e1, e2⟩ := e
    intro t k3 r3 h
    rcases ih (t.add e1 e2) k3 r3 h with h' | h'
    · rcases Quadtree.add_stored_sub t e1 k3 e2 r3 h' with h'' | h''
      · exact Or.inl h''
      · right
        rw [h''.1, h''.2]
        exact List.mem_cons_self _ _
    · exact Or.inr (List.mem_cons_of_mem _ h')

theorem Quadtree.addAll_pres {K : Type} [DecidableEq K] (k : K)
    (r : Region) (hrw : 0 ≤ r.width) (hrh : 0 ≤ r.height) :
    ∀ (entries : List (K × Region)) (t : Quadtree K),
      (∀ e ∈ entries, e.1 ≠ k) → TreeInv t → StoredC t k r →
      (∀ r', Stored t k r' → r' = r) → containsB t.field r = true →
      StoredC (t.addAll entries) k r := by
  intro entries
  induction entries with
  | nil => intro t _ _ hSC _ _; exact hSC
  | cons e rest ih =>
    obtain ⟨e1, e2⟩ := e
    intro t hne hTI hSC hOnly hcont
    have hne1 : e1 ≠ k := hne (e1, e2) (List.mem_cons_self _ _)
    have hSC' : StoredC (t.add e1 e2) k r :=
      Quadtree.add_pres t k e1 r e2 hrw hrh hne1 hTI hSC hOnly hcont
    have hTI' : TreeInv (t.add e1 e2) := Quadtree.add_inv t e1 e2 hTI
    have hOnly' : ∀ r', Stored (t.add e1 e2) k r' → r' = r := by
      intro r' hst
      rcases Quadtree.add_stored_sub t e1 k e2 r' hst with h' | h'
      · exact hOnly r' h'
      · exact absurd h'.1.symm hne1
    have hcont' : containsB (t.add e1 e2).field r = true := by
      rw [(Quadtree.add_meta t e1 e2).1]
      exact hcont
    exact ih (t.add e1 e2)
      (fun e he hh => hne e (List.mem_cons_of_mem _ he) hh) hTI' hSC'
      hOnly' hcont'

/-- `find` completeness for the tracked pair: coherent storage of a
field-contained region in a well-formed tree is always reached by a
query that truly overlaps the region — the own keys are listed at every
node, the query follows either the same quadrant index as the region or
searches all subnodes, and distinct indices would make overlap
impossible. -/
theorem find_complete {K : Type} [DecidableEq K] (k : K) (r q : Region)
    (hover : overlapB r q = true) :
    ∀ (t : Quadtree K), TreeInv t → StoredC t k r →
      containsB t.field r = true → k ∈ t.find q := by
  intro t
  induction t with
  | leaf f th dp lv objs cnt =>
    intro hTI hSC hcont
    simp only [Quadtree.field] at hcont
    simp only [StoredC] at hSC
    have hq : isInField f q = true := by
      rw [isInField_true_iff]
      exact overlapB_of_containsB f r q hcont hover
    simp only [Quadtree.find]
    rw [if_neg (by simp [hq])]
    exact List.mem_map.mpr ⟨(k, r), hSC, rfl⟩
  | node f th dp lv objs cnt c0 c1 c2 c3 ih0 ih1 ih2 ih3 =>
    intro hTI hSC hcont
    simp only [Quadtree.field] at hcont
    simp only [TreeInv] at hTI
    obtain ⟨hlv, hs0, hs1, hs2, hs3, h0, h1, h2, h3⟩ := hTI
    simp only [StoredC] at hSC
    have hq : isInField f q = true := by
      rw [isInField_true_iff]
      exact overlapB_of_containsB f r q hcont hover
    simp only [Quadtree.find]
    rw [if_neg (by simp [hq])]
    rcases hSC with hM | ⟨hgi, hS⟩ | ⟨hgi, hS⟩ | ⟨hgi, hS⟩ | ⟨hgi, hS⟩
    · have hk : k ∈ objs.map Prod.fst := List.mem_map.mpr ⟨(k, r), hM, rfl⟩
      split_ifs <;> exact List.mem_append_left _ hk
    · have hrec : k ∈ c0.find q := ih0 h0 hS
        (containsB_child_of_SubOk f dp lv 0 c0 r hs0 hcont hgi (by decide))
      rcases getIndex_eq_cases f q with hq' | hq' | hq' | hq' | hq'
      · rw [if_neg (by omega), if_neg (by omega), if_neg (by omega),
          if_neg (by omega)]
        exact List.mem_append_right _ (List.mem_append.mpr (Or.inl hrec))
      · rw [if_pos hq']
        exact List.mem_append_right _ hrec
      · have hfo : overlapB r q = false :=
          overlapB_false_of_getIndex_ne f r q (by omega) (by omega)
            (by omega)
        rw [hfo] at hover
        exact absurd hover (by decide)
      · have hfo : overlapB r q = false :=
          overlapB_false_of_getIndex_ne f r q (by omega) (by omega)
            (by omega)
        rw [hfo] at hover
        exact absurd hover (by decide)
      · have hfo : overlapB r q = false :=
          overlapB_false_of_getIndex_ne f r q (by omega) (by omega)
            (by omega)
        rw [hfo] at hover
        exact absurd hover (by decide)
    · have hrec : k ∈ c1.find q := ih1 h1 hS
        (containsB_child_of_SubOk f dp lv 1 c1 r hs1 hcont hgi (by decide))
      rcases getIndex_eq_cases f q with hq' | hq' | hq' | hq' | hq'
      · rw [if_neg (by omega), if_neg (by omega), if_neg (by omega),
          if_neg (by omega)]
        exact List.mem_append_right _ (List.mem_append.mpr (Or.inr
          (List.mem_append.mpr (Or.inl hrec))))
      · have hfo : overlapB r q = false :=
          overlapB_false_of_getIndex_ne f r q (by omega) (by omega)
            (by omega)
        rw [hfo] at hover
        exact absurd hover (by decide)
      · rw [if_neg (by omega), if_pos hq']
        exact List.mem_append_right _ hrec
      · have hfo : overlapB r q = false :=
          overlapB_false_of_getIndex_ne f r q (by omega) (by omega)
            (by omega)
        rw [hfo] at hover
        exact absurd hover (by decide)
      · have hfo : overlapB r q = false :=
          overlapB_false_of_getIndex_ne f r q (by omega) (by omega)
            (by omega)
        rw [hfo] at hover
        exact absurd hover (by decide)
    · have hrec : k ∈ c2.find q := ih2 h2 hS
        (containsB_child_of_SubOk f dp lv 2 c2 r hs2 hcont hgi (by decide))
      rcases getIndex_eq_cases f q with hq' | hq' | hq' | hq' | hq'
      · rw [if_neg (by omega), if_neg (by omega), if_neg (by omega),
          if_neg (by omega)]
        exact List.mem_append_right _ (List.mem_append.mpr (Or.inr
          (List.mem_append.mpr (Or.inr (List.mem_append.mpr
            (Or.inl hrec))))))
      · have hfo : overlapB r q = false :=
          overlapB_false_of_getIndex_ne f r q (by omega) (by omega)
            (by omega)
        rw [hfo] at hover
        exact absurd hover (by decide)
      · have hfo : overlapB r q = false :=
          overlapB_false_of_getIndex_ne f r q (by omega) (by omega)
            (by omega)
        rw [hfo] at hover
        exact absurd hover (by decide)
      · rw [if_neg (by omega), if_neg (by omega), if_pos hq']
        exact List.mem_append_right _ hrec
      · have hfo : overlapB r q = false :=
          overlapB_false_of_getIndex_ne f r q (by omega) (by omega)
            (by omega)
        rw [hfo] at hover
        exact absurd hover (by decide)
    · have hrec : k ∈ c3.find q := ih3 h3 hS
        (containsB_child_of_SubOk f dp lv 3 c3 r hs3 hcont hgi (by decide))
      rcases getIndex_eq_cases f q with hq' | hq' | hq' | hq' | hq'
      · rw [if_neg (by omega), if_neg (by omega), if_neg (by omega),
          if_neg (by omega)]
        exact List.mem_append_right _ (List.mem_append.mpr (Or.inr
          (List.mem_append.mpr (Or.inr (List.mem_append.mpr
            (Or.inr hrec))))))
      · have hfo : overlapB r q = false :=
          overlapB_false_of_getIndex_ne f r q (by omega) (by omega)
            (by omega)
        rw [hfo] at hover
        exact absurd hover (by decide)
      · have hfo : overlapB r q = false :=
          overlapB_false_of_getIndex_ne f r q (by omega) (by omega)
            (by omega)
        rw [hfo] at hover
        exact absurd hover (by decide)
      · have hfo : overlapB r q = false :=
          overlapB_false_of_getIndex_ne f r q (by omega) (by omega)
            (by omega)
        rw [hfo] at hover
        exact absurd hover (by decide)
      · rw [if_neg (by omega), if_neg (by omega), if_neg (by omega),
          if_pos hq']
        exact List.mem_append_right _ hrec

/-- Quadtree, no false negatives: a key added (in a sequence of adds with
pairwise-distinct keys, starting from the constructor) under a region
contained in the field with nonnegative dimensions is returned by `find`
for every query that truly overlaps that region. -/
theorem quadtree_no_false_negative {K : Type} [DecidableEq K]
    (field : Region) (th dp : ℤ) (entries : List (K × Region)) (k : K)
    (r q : Region) (hmem : (k, r) ∈ entries)
    (hnodup : (entries.map Prod.fst).Nodup)
    (hcont : containsB field r = true)
    (hrw : 0 ≤ r.width) (hrh : 0 ≤ r.height)
    (hover : overlapB r q = true) :
    k ∈ ((Quadtree.create K field th dp).addAll entries).find q := by
  obtain ⟨pre, post, rfl⟩ := List.append_of_mem hmem
  rw [List.map_append, List.map_cons] at hnodup
  have hkpre : k ∉ pre.map Prod.fst := fun hk =>
    (List.disjoint_of_nodup_append hnodup) hk (List.mem_cons_self _ _)
  have hkpost : k ∉ post.map Prod.fst :=
    (List.nodup_cons.mp (List.Nodup.of_append_right hnodup)).1
  have hpre : ∀ e ∈ pre, e.1 ≠ k := by
    intro e he hh
    exact hkpre (hh ▸ List.mem_map_of_mem Prod.fst he)
  have hpost : ∀ e ∈ post, e.1 ≠ k := by
    intro e he hh
    exact hkpost (hh ▸ List.mem_map_of_mem Prod.fst he)
  have hTI0 : TreeInv (Quadtree.create K field th dp) :=
    TreeInv_leaf _ _ _ _ _ _
  obtain ⟨hTI1, hf1, hd1, hl1⟩ :=
    Quadtree.addAll_inv_meta pre (Quadtree.create K field th dp) hTI0
  have hOnly1 : ∀ r',
      Stored ((Quadtree.create K field th dp).addAll pre) k r' → r' = r := by
    intro r' hst
    rcases Quadtree.addAll_stored_sub pre (Quadtree.create K field th dp)
      k r' hst with h' | h'
    · exact absurd (by simpa only [Quadtree.create, Stored] using h')
        (List.not_mem_nil _)
    · exact absurd (List.mem_map_of_mem Prod.fst h') hkpre
  have hcont1 : containsB
      ((Quadtree.create K field th dp).addAll pre).field r = true := by
    rw [hf1]
    exact hcont
  have hSC2 : StoredC
      (((Quadtree.create K field th dp).addAll pre).add k r) k r :=
    Quadtree.add_storedC _ k r hrw hrh hTI1 hOnly1 hcont1
  have hTI2 : TreeInv
      (((Quadtree.create K field th dp).addAll pre).add k r) :=
    Quadtree.add_inv _ k r hTI1
  have hOnly2 : ∀ r',
      Stored (((Quadtree.create K field th dp).addAll pre).add k r) k r' →
      r' = r := by
    intro r' hst
    rcases Quadtree.add_stored_sub _ k k r r' hst with h' | h'
    · exact hOnly1 r' h'
    · exact h'.2
  have hcont2 : containsB
      ((((Quadtree.create K field th dp).addAll pre).add k r)).field r =
      true := by
    rw [(Quadtree.add_meta _ k r).1]
    exact hcont1
  have hSC3 : StoredC
      ((((Quadtree.create K field th dp).addAll pre).add k r).addAll post)
      k r :=
    Quadtree.addAll_pres k r hrw hrh post _ hpost hTI2 hSC2 hOnly2 hcont2
  obtain ⟨hTI3, hf3, hd3, hl3⟩ := Quadtree.addAll_inv_meta post
    (((Quadtree.create K field th dp).addAll pre).add k r) hTI2
  have hcont3 : containsB
      (((((Quadtree.create K field th dp).addAll pre).add k r).addAll
        post)).field r = true := by
    rw [hf3]
    exact hcont2
  have hfind := find_complete k r q hover _ hTI3 hSC3 hcont3
  simpa only [Quadtree.addAll, List.foldl_append, List.foldl_cons]
    using hfind

end Spatial

open Swept in
open Swept.JsNum in
/-- C7 (amended): `intersectSegment` with a zero delta component is total —
the divisions produce infinities, not failures — and, provided the start
does not lie exactly on a zero-delta axis' padded slab plane, the infinite
entry/exit times resolve exactly as "no intersection on this axis": a
zero-delta axis with the start strictly outside its padded slab gives null;
strictly inside, the axis imposes no constraint and the result is the 1-D
slab outcome on the other axis; for delta = (0,0), strictly inside on both
axes gives a time-0 hit at the start and strictly outside on one axis gives
null.  (On the excluded boundary `0 * Infinity` is NaN and a NaN-filled Hit
escapes; see the counterexample.) -/
theorem C7_intersectSegment_zero_delta_resolves
    (ax ay hx hy sx sy dx dy padx pady : ℚ) :
    (dy ≠ 0 → (sx < ax - (hx + padx) ∨ ax + (hx + padx) < sx) →
      intersectSegment ⟨⟨fin ax, fin ay⟩, ⟨fin hx, fin hy⟩⟩
        ⟨fin sx, fin sy⟩ ⟨fin 0, fin dy⟩ ⟨fin padx, fin pady⟩ = none) ∧
    (dy ≠ 0 → ax - (hx + padx) < sx → sx < ax + (hx + padx) →
      intersectSegment ⟨⟨fin ax, fin ay⟩, ⟨fin hx, fin hy⟩⟩
        ⟨fin sx, fin sy⟩ ⟨fin 0, fin dy⟩ ⟨fin padx, fin pady⟩ =
        yOnlySlab ax ay hx hy sx sy dy pady) ∧
    (dx ≠ 0 → (sy < ay - (hy + pady) ∨ ay + (hy + pady) < sy) →
      intersectSegment ⟨⟨fin ax, fin ay⟩, ⟨fin hx, fin hy⟩⟩
        ⟨fin sx, fin sy⟩ ⟨fin dx, fin 0⟩ ⟨fin padx, fin pady⟩ = none) ∧
    (dx ≠ 0 → ay - (hy + pady) < sy → sy < ay + (hy + pady) →
      intersectSegment ⟨⟨fin ax, fin ay⟩, ⟨fin hx, fin hy⟩⟩
        ⟨fin sx, fin sy⟩ ⟨fin dx, fin 0⟩ ⟨fin padx, fin pady⟩ =
        xOnlySlab ax ay hx hy sx sy dx padx) ∧
    (ax - (hx + padx) < sx → sx < ax + (hx + padx) →
      ay - (hy + pady) < sy → sy < ay + (hy + pady) →
      intersectSegment ⟨⟨fin ax, fin ay⟩, ⟨fin hx, fin hy⟩⟩
        ⟨fin sx, fin sy⟩ ⟨fin 0, fin 0⟩ ⟨fin padx, fin pady⟩ =
        some ⟨⟨⟨fin ax, fin ay⟩, ⟨fin hx, fin hy⟩⟩, ⟨fin sx, fin sy⟩,
          ⟨fin 0, fin 0⟩, ⟨fin 0, fin (-1)⟩, fin 0⟩) ∧
    (0 ≤ hx + padx → 0 ≤ hy + pady →
      (sx < ax - (hx + padx) ∨
        (ax - (hx + padx) < sx ∧ sx < ax + (hx + padx)) ∨
        ax + (hx + padx) < sx) →
      (sy < ay - (hy + pady) ∨
        (ay - (hy + pady) < sy ∧ sy < ay + (hy + pady)) ∨
        ay + (hy + pady) < sy) →
      ((sx < ax - (hx + padx) ∨ ax + (hx + padx) < sx) ∨
        (sy < ay - (hy + pady) ∨ ay + (hy + pady) < sy)) →
      intersectSegment ⟨⟨fin ax, fin ay⟩, ⟨fin hx, fin hy⟩⟩
        ⟨fin sx, fin sy⟩ ⟨fin 0, fin 0⟩ ⟨fin padx, fin pady⟩ = none) :=
  ⟨fun hdy hout =>
      intersectSegment_zeroX_outside ax ay hx hy sx sy dy padx pady hdy hout,
    fun hdy h1 h2 =>
      intersectSegment_zeroX_inside ax ay hx hy sx sy dy padx pady hdy h1 h2,
    fun hdx hout =>
      intersectSegment_zeroY_outside ax ay hx hy sx sy dx padx pady hdx hout,
    fun hdx h1 h2 =>
      intersectSegment_zeroY_inside ax ay hx hy sx sy dx padx pady hdx h1 h2,
    fun h1 h2 h3 h4 =>
      intersectSegment_zeroDelta_inside ax ay hx hy sx sy padx pady
        h1 h2 h3 h4,
    fun hpx hpy hX hY hout =>
      intersectSegment_zeroDelta_outside ax ay hx hy sx sy padx pady
        hpx hpy hX hY hout⟩

open Swept in
open Swept.JsNum in
/-- C7 counterexample: with delta = (0,0), padding 0, the unit-half box at
the origin and the start (-5,-1) — strictly outside the x slab [-1,1] but
exactly on the lower y slab plane — the y near time is `0 * Infinity = NaN`,
the NaN comparisons all fail, and a Hit full of NaNs is returned instead of
null. -/
theorem C7_counterexample :
    intersectSegment ⟨⟨fin 0, fin 0⟩, ⟨fin 1, fin 1⟩⟩
        ⟨fin (-5), fin (-1)⟩ ⟨fin 0, fin 0⟩ ⟨fin 0, fin 0⟩ =
      some ⟨⟨⟨fin 0, fin 0⟩, ⟨fin 1, fin 1⟩⟩, ⟨nan, nan⟩, ⟨nan, nan⟩,
        ⟨fin 0, fin (-1)⟩, nan⟩ ∧
    ((-5 : ℚ) < 0 - (1 + 0)) := by
  constructor
  · decide
  · norm_num

open Swept in
open Swept.JsNum in
/-- Witness for C7, exercising every conjunct at concrete inputs around the
unit-half box at the origin. -/
theorem C7_witness :
    (intersectSegment ⟨⟨fin 0, fin 0⟩, ⟨fin 1, fin 1⟩⟩ ⟨fin 5, fin 0⟩
        ⟨fin 0, fin 1⟩ ⟨fin 0, fin 0⟩ = none) ∧
    (intersectSegment ⟨⟨fin 0, fin 0⟩, ⟨fin 1, fin 1⟩⟩ ⟨fin 0, fin (-5)⟩
        ⟨fin 0, fin 1⟩ ⟨fin 0, fin 0⟩ =
      yOnlySlab 0 0 1 1 0 (-5) 1 0) ∧
    (intersectSegment ⟨⟨fin 0, fin 0⟩, ⟨fin 1, fin 1⟩⟩ ⟨fin 0, fin 5⟩
        ⟨fin 1, fin 0⟩ ⟨fin 0, fin 0⟩ = none) ∧
    (intersectSegment ⟨⟨fin 0, fin 0⟩, ⟨fin 1, fin 1⟩⟩ ⟨fin (-5), fin 0⟩
        ⟨fin 1, fin 0⟩ ⟨fin 0, fin 0⟩ =
      xOnlySlab 0 0 1 1 (-5) 0 1 0) ∧
    (intersectSegment ⟨⟨fin 0, fin 0⟩, ⟨fin 1, fin 1⟩⟩
        ⟨fin 0, fin 0⟩ ⟨fin 0, fin 0⟩ ⟨fin 0, fin 0⟩ =
      some ⟨⟨⟨fin 0, fin 0⟩, ⟨fin 1, fin 1⟩⟩, ⟨fin 0, fin 0⟩,
        ⟨fin 0, fin 0⟩, ⟨fin 0, fin (-1)⟩, fin 0⟩) ∧
    (intersectSegment ⟨⟨fin 0, fin 0⟩, ⟨fin 1, fin 1⟩⟩
        ⟨fin 5, fin 0⟩ ⟨fin 0, fin 0⟩ ⟨fin 0, fin 0⟩ = none) :=
  ⟨(C7_intersectSegment_zero_delta_resolves 0 0 1 1 5 0 1 1 0 0).1
      (by norm_num) (by norm_num),
    (C7_intersectSegment_zero_delta_resolves 0 0 1 1 0 (-5) 1 1 0 0).2.1
      (by norm_num) (by norm_num) (by norm_num),
    (C7_intersectSegment_zero_delta_resolves 0 0 1 1 0 5 1 1 0 0).2.2.1
      (by norm_num) (by norm_num),
    (C7_intersectSegment_zero_delta_resolves 0 0 1 1 (-5) 0 1 1 0 0).2.2.2.1
      (by norm_num) (by norm_num) (by norm_num),
    (C7_intersectSegment_zero_delta_resolves 0 0 1 1 0 0 1 1 0 0).2.2.2.2.1
      (by norm_num) (by norm_num) (by norm_num) (by norm_num),
    (C7_intersectSegment_zero_delta_resolves 0 0 1 1 5 0 1 1 0 0).2.2.2.2.2
      (by norm_num) (by norm_num) (by norm_num) (by norm_num)
      (by norm_num)⟩

open Swept in
/-- C4: with a zero delta, `sweepAABB` degenerates to the static test: its
hit is exactly the `intersectAABB` hit (with `time` forced to 0 on it), its
time is 0 when the static test hits and 1 otherwise, and its position is the
box position. -/
theorem C4_sweepAABB_zero_delta_is_static_test (sqrtFn : ℚ → ℚ)
    (aabb box : AABB) :
    (sweepAABB sqrtFn aabb box ⟨JsNum.fin 0, JsNum.fin 0⟩).hit =
      (intersectAABB aabb box).map
        (fun h => { h with time := JsNum.fin 0 }) ∧
    (sweepAABB sqrtFn aabb box ⟨JsNum.fin 0, JsNum.fin 0⟩).time =
      (if (intersectAABB aabb box).isSome then JsNum.fin 0
        else JsNum.fin 1) ∧
    (sweepAABB sqrtFn aabb box ⟨JsNum.fin 0, JsNum.fin 0⟩).position
      = box.position := by
  unfold sweepAABB
  simp

open Swept in
open Swept.JsNum in
/-- C10: the static AABB tests are boundary exclusive — `intersectPoint` and
`intersectAABB` return a hit exactly when the penetration is strictly
positive on both axes, so a point exactly on a face or two flush boxes give
null — in contrast to the boundary-inclusive circle test. -/
theorem C10_static_tests_boundary_exclusive
    (ax ay hx hy ptx pty bx0 by0 bhx bhy : ℚ) :
    ((intersectPoint ⟨⟨fin ax, fin ay⟩, ⟨fin hx, fin hy⟩⟩
        ⟨fin ptx, fin pty⟩).isSome = true ↔
      (0 < hx - |ptx - ax| ∧ 0 < hy - |pty - ay|)) ∧
    ((intersectAABB ⟨⟨fin ax, fin ay⟩, ⟨fin hx, fin hy⟩⟩
        ⟨⟨fin bx0, fin by0⟩, ⟨fin bhx, fin bhy⟩⟩).isSome = true ↔
      (0 < (bhx + hx) - |bx0 - ax| ∧ 0 < (bhy + hy) - |by0 - ay|)) ∧
    (∀ cx cy r qx qy : ℚ,
      Sat.pointInCircle ⟨qx, qy⟩ ⟨⟨cx, cy⟩, r⟩ = true ↔
        (qx - cx) * (qx - cx) + (qy - cy) * (qy - cy) ≤ r * r) := by
  refine ⟨?_, ?_, ?_⟩
  · by_cases h1 : hx - |ptx - ax| ≤ 0
    · have hnone : intersectPoint ⟨⟨fin ax, fin ay⟩, ⟨fin hx, fin hy⟩⟩
          ⟨fin ptx, fin pty⟩ = none := by
        unfold intersectPoint
        simp [h1]
      rw [hnone]
      simp only [Option.isSome_none, Bool.false_eq_true, false_iff, not_and,
        not_lt]
      intro hgt
      linarith
    · by_cases h2 : hy - |pty - ay| ≤ 0
      · have hnone : intersectPoint ⟨⟨fin ax, fin ay⟩, ⟨fin hx, fin hy⟩⟩
            ⟨fin ptx, fin pty⟩ = none := by
          unfold intersectPoint
          simp [h1, h2]
        rw [hnone]
        simp only [Option.isSome_none, Bool.false_eq_true, false_iff,
          not_and, not_lt]
        intro hgt
        linarith
      · have hsome : (intersectPoint ⟨⟨fin ax, fin ay⟩, ⟨fin hx, fin hy⟩⟩
            ⟨fin ptx, fin pty⟩).isSome = true := by
          unfold intersectPoint
          simp only [le_fin_fin, sub_fin_fin, jsAbs_fin, decide_eq_true_eq,
            if_neg h1, if_neg h2]
          split <;> rfl
        rw [hsome]
        simp only [true_iff]
        constructor <;> linarith
  · by_cases h1 : bhx + hx - |bx0 - ax| ≤ 0
    · have hnone : intersectAABB ⟨⟨fin ax, fin ay⟩, ⟨fin hx, fin hy⟩⟩
          ⟨⟨fin bx0, fin by0⟩, ⟨fin bhx, fin bhy⟩⟩ = none := by
        unfold intersectAABB
        simp [h1]
      rw [hnone]
      simp only [Option.isSome_none, Bool.false_eq_true, false_iff, not_and,
        not_lt]
      intro hgt
      linarith
    · by_cases h2 : bhy + hy - |by0 - ay| ≤ 0
      · have hnone : intersectAABB ⟨⟨fin ax, fin ay⟩, ⟨fin hx, fin hy⟩⟩
            ⟨⟨fin bx0, fin by0⟩, ⟨fin bhx, fin bhy⟩⟩ = none := by
          unfold intersectAABB
          simp [h1, h2]
        rw [hnone]
        simp only [Option.isSome_none, Bool.false_eq_true, false_iff,
          not_and, not_lt]
        intro hgt
        linarith
      · have hsome : (intersectAABB ⟨⟨fin ax, fin ay⟩, ⟨fin hx, fin hy⟩⟩
            ⟨⟨fin bx0, fin by0⟩, ⟨fin bhx, fin bhy⟩⟩).isSome = true := by
          unfold intersectAABB
          simp only [le_fin_fin, sub_fin_fin, add_fin_fin, jsAbs_fin,
            decide_eq_true_eq, if_neg h1, if_neg h2]
          split <;> rfl
        rw [hsome]
        simp only [true_iff]
        constructor <;> linarith
  · intro cx cy r qx qy
    simp [Sat.pointInCircle, Sat.len2, Sat.dot]

open Spatial in
/-- C8 (amended): the constructor binds `getHashes` to the offsets
`(field.x, field.y)`, the shift `ceilLog2 max - d` (`divisions = 2 ^ d`),
and the end clamp `(max >> shift) - 1`; the bucket size `2 ^ shift` times
`divisions` is exactly the next power of two above the larger field
dimension.  The spanned range is the inclusive rectangle of bucket indices
with the start clamped below at `0` and the end clamped above at
`(max >> shift) - 1` — which is at most `divisions - 1` but is strictly
smaller whenever the larger dimension is not a power of two, so the claimed
symmetric clamp of both endpoints into `[0, divisions - 1]` does not match
the code (see the counterexample).  `add` appends the key to exactly the
buckets of that range and `find` reads exactly the buckets of the query's
range. -/
theorem C8_gridHash_bucket_ranges_amended (field : Region) (d : ℕ)
    (region : Region)
    (hd : d ≤ ceilLog2 (max field.width field.height).toNat)
    (hm : 0 ≤ max field.width field.height) :
    ((SpatialHash.create ℕ field d).offsetX = field.x ∧
      (SpatialHash.create ℕ field d).offsetY = field.y ∧
      (SpatialHash.create ℕ field d).size =
        ceilLog2 (max field.width field.height).toNat - d ∧
      (SpatialHash.create ℕ field d).maxIndex =
        Int.fdiv (max field.width field.height)
          (2 ^ (ceilLog2 (max field.width field.height).toNat - d)) - 1) ∧
    (2 : ℤ) ^ d * 2 ^ (ceilLog2 (max field.width field.height).toNat - d) =
      2 ^ ceilLog2 (max field.width field.height).toNat ∧
    (SpatialHash.create ℕ field d).maxIndex ≤ 2 ^ d - 1 ∧
    (∀ p : ℤ × ℤ,
      p ∈ getHashes field.x field.y (SpatialHash.create ℕ field d).maxIndex
          (SpatialHash.create ℕ field d).size region ↔
        (max (Int.fdiv (region.x - field.x)
            (2 ^ (SpatialHash.create ℕ field d).size)) 0 ≤ p.1 ∧
          p.1 ≤ min (Int.fdiv (region.x - field.x + region.width)
              (2 ^ (SpatialHash.create ℕ field d).size))
            (SpatialHash.create ℕ field d).maxIndex ∧
          max (Int.fdiv (region.y - field.y)
            (2 ^ (SpatialHash.create ℕ field d).size)) 0 ≤ p.2 ∧
          p.2 ≤ min (Int.fdiv (region.y - field.y + region.height)
              (2 ^ (SpatialHash.create ℕ field d).size))
            (SpatialHash.create ℕ field d).maxIndex)) ∧
    (∀ (s : SpatialHash ℕ) (key : ℕ) (reg : Region) (p : ℤ × ℤ),
      (s.add key reg).objects p =
        if p ∈ getHashes s.offsetX s.offsetY s.maxIndex s.size reg
        then s.objects p ++ [key] else s.objects p) ∧
    (∀ (s : SpatialHash ℕ) (qreg : Region),
      s.find qreg =
        (getHashes s.offsetX s.offsetY s.maxIndex s.size qreg).flatMap
          s.objects) := by
  have hcond : ¬ ceilLog2 (max field.width field.height).toNat < d := by
    omega
  have hsize : (SpatialHash.create ℕ field d).size =
      ceilLog2 (max field.width field.height).toNat - d := by
    simp only [SpatialHash.create]
    rw [if_neg hcond]
  have hmaxIdx : (SpatialHash.create ℕ field d).maxIndex =
      Int.fdiv (max field.width field.height)
        (2 ^ (ceilLog2 (max field.width field.height).toNat - d)) - 1 := by
    simp only [SpatialHash.create]
    rw [if_neg hcond]
  refine ⟨⟨rfl, rfl, hsize, hmaxIdx⟩, ?_, ?_,
    fun p => mem_getHashes field.x field.y _ _ region p,
    fun s key reg p => rfl, fun s qreg => rfl⟩
  · have hsum : d + (ceilLog2 (max field.width field.height).toNat - d) =
        ceilLog2 (max field.width field.height).toNat := by omega
    rw [← pow_add, hsum]
  · rw [hmaxIdx]
    have hle : (max field.width field.height) ≤
        ((2 : ℤ) ^ d) * 2 ^ (ceilLog2 (max field.width field.height).toNat - d) := by
      have h1 : (max field.width field.height).toNat ≤
          2 ^ ceilLog2 (max field.width field.height).toNat :=
        ceilLog2_spec _
      have h2 : (max field.width field.height) ≤
          ((2 ^ ceilLog2 (max field.width field.height).toNat : ℕ) : ℤ) :=
        Int.toNat_le.mp h1
      have hsum : d + (ceilLog2 (max field.width field.height).toNat - d) =
          ceilLog2 (max field.width field.height).toNat := by omega
      calc (max field.width field.height)
          ≤ ((2 ^ ceilLog2 (max field.width field.height).toNat : ℕ) : ℤ) :=
            h2
        _ = (2 : ℤ) ^ ceilLog2 (max field.width field.height).toNat := by
            push_cast; rfl
        _ = ((2 : ℤ) ^ d) *
            2 ^ (ceilLog2 (max field.width field.height).toNat - d) := by
            rw [← pow_add, hsum]
    have hpow : (0 : ℤ) < 2 ^ (ceilLog2 (max field.width field.height).toNat - d) := by
      positivity
    have hdivle : Int.fdiv (max field.width field.height)
        (2 ^ (ceilLog2 (max field.width field.height).toNat - d)) ≤
        Int.fdiv (((2 : ℤ) ^ d) *
          2 ^ (ceilLog2 (max field.width field.height).toNat - d))
          (2 ^ (ceilLog2 (max field.width field.height).toNat - d)) :=
      fdiv_le_fdiv_right hpow hle
    rw [Int.mul_fdiv_cancel _ (ne_of_gt hpow)] at hdivle
    omega

open Spatial in
/-- C8 counterexample: at the field 300 × 200 with `divisions = 8`
(`d = 3`), the shift is `ceilLog2 300 - 3 = 6` and the code's end clamp is
`(300 >> 6) - 1 = 3`, not `divisions - 1 = 7`: the region spanning the
field's width maps to the buckets `(0,0) … (3,0)` instead of the claimed
`(0,0) … (4,0)`, and the bucket `(4,0)` — which covers field cells
`256 … 319`, inside the 300-wide field — is never read or written. -/
theorem C8_counterexample :
    (SpatialHash.create ℕ ⟨0, 0, 300, 200⟩ 3).maxIndex = 3 ∧
    ((2 : ℤ) ^ 3 - 1 = 7) ∧
    getHashes 0 0 (SpatialHash.create ℕ ⟨0, 0, 300, 200⟩ 3).maxIndex
        (SpatialHash.create ℕ ⟨0, 0, 300, 200⟩ 3).size ⟨0, 0, 299, 0⟩ ≠
      getHashesClaimed 0 0 (2 ^ 3)
        (SpatialHash.create ℕ ⟨0, 0, 300, 200⟩ 3).size ⟨0, 0, 299, 0⟩ ∧
    ((4 : ℤ), (0 : ℤ)) ∈ getHashesClaimed 0 0 (2 ^ 3)
        (SpatialHash.create ℕ ⟨0, 0, 300, 200⟩ 3).size ⟨0, 0, 299, 0⟩ ∧
    ((4 : ℤ), (0 : ℤ)) ∉ getHashes 0 0
        (SpatialHash.create ℕ ⟨0, 0, 300, 200⟩ 3).maxIndex
        (SpatialHash.create ℕ ⟨0, 0, 300, 200⟩ 3).size ⟨0, 0, 299, 0⟩ := by
  decide

open Spatial in
/-- C8 witness: the amended range characterization and end-clamp bound at
the 300 × 200 field with 8 divisions. -/
theorem C8_witness :
    (SpatialHash.create ℕ ⟨0, 0, 300, 200⟩ 3).maxIndex ≤ 2 ^ 3 - 1 ∧
    ((3 : ℤ), (0 : ℤ)) ∈ getHashes 0 0
      (SpatialHash.create ℕ ⟨0, 0, 300, 200⟩ 3).maxIndex
      (SpatialHash.create ℕ ⟨0, 0, 300, 200⟩ 3).size ⟨0, 0, 299, 0⟩ := by
  have h := C8_gridHash_bucket_ranges_amended ⟨0, 0, 300, 200⟩ 3
    ⟨0, 0, 299, 0⟩ (by decide) (by decide)
  exact ⟨h.2.2.1, (h.2.2.2.1 ((3 : ℤ), (0 : ℤ))).mpr (by decide)⟩

open Spatial in
/-- C2 (amended): no false negatives for both spatial indexes, under the
provisos the code requires.  Grid hash: a key added under a region that
truly overlaps the query is returned by `find`, provided both regions have
nonnegative dimensions and both clamped bucket ranges are nonempty (two
ways the code empties a range of a region inside the field: the end clamp
`(max >> shift) - 1` stops short of `divisions - 1` on non-power-of-two
fields, and a field narrower than the division count makes the shift
negative, so `>>` shifts by `shift + 32`, the end clamp is `-1`, and
every range is empty — see the counterexample for both).  Quadtree: a key
added — in a sequence of adds with pairwise-distinct keys — under a
region contained in the field with nonnegative dimensions is returned by
`find` for every truly overlapping query. -/
theorem C2_find_no_false_negatives :
    (∀ (field : Region) (d : ℕ) (entries : List (ℕ × Region)) (k : ℕ)
      (r q : Region), (k, r) ∈ entries →
      0 ≤ r.width → 0 ≤ r.height → 0 ≤ q.width → 0 ≤ q.height →
      overlapB r q = true →
      getHashes (SpatialHash.create ℕ field d).offsetX
        (SpatialHash.create ℕ field d).offsetY
        (SpatialHash.create ℕ field d).maxIndex
        (SpatialHash.create ℕ field d).size r ≠ [] →
      getHashes (SpatialHash.create ℕ field d).offsetX
        (SpatialHash.create ℕ field d).offsetY
        (SpatialHash.create ℕ field d).maxIndex
        (SpatialHash.create ℕ field d).size q ≠ [] →
      k ∈ ((SpatialHash.create ℕ field d).addAll entries).find q) ∧
    (∀ (field : Region) (th dp : ℤ) (entries : List (ℕ × Region)) (k : ℕ)
      (r q : Region), (k, r) ∈ entries →
      (entries.map Prod.fst).Nodup → containsB field r = true →
      0 ≤ r.width → 0 ≤ r.height → overlapB r q = true →
      k ∈ ((Quadtree.create ℕ field th dp).addAll entries).find q) :=
  ⟨fun field d entries k r q hmem hrw hrh hqw hqh hover hrne hqne =>
    gridHash_no_false_negative field d entries k r q hmem hrw hrh hqw hqh
      hover hrne hqne,
   fun field th dp entries k r q hmem hnodup hcont hrw hrh hover =>
    quadtree_no_false_negative field th dp entries k r q hmem hnodup hcont
      hrw hrh hover⟩

open Spatial in
/-- C2 counterexample (grid hash, both failure modes): at the 300 × 200
field with 8 divisions, the region `(270, 0) 10 × 10` — inside the
field — hashes to the empty bucket range (start `270 >> 6 = 4`, end
`min (280 >> 6) 3 = 3`), so its key is written to no bucket, and the
truly-overlapping query `(260, 0) 30 × 30` finds nothing.  And at a 2 × 2
field with 8 divisions the shift is negative (`1 - 3`), `>>` shifts by
`30`, the end clamp is `(2 >> 30) - 1 = -1`, and the in-field region
`(0, 0) 1 × 1` is again written to no bucket, so the overlapping query
`(0, 0) 2 × 2` finds nothing: false negatives of the running code,
refuting the unconditional claim. -/
theorem C2_counterexample :
    containsB ⟨0, 0, 300, 200⟩ ⟨270, 0, 10, 10⟩ = true ∧
    overlapB ⟨270, 0, 10, 10⟩ ⟨260, 0, 30, 30⟩ = true ∧
    ((SpatialHash.create ℕ ⟨0, 0, 300, 200⟩ 3).addAll
      [(7, ⟨270, 0, 10, 10⟩)]).find ⟨260, 0, 30, 30⟩ = [] ∧
    (SpatialHash.create ℕ ⟨0, 0, 2, 2⟩ 3).size = 30 ∧
    (SpatialHash.create ℕ ⟨0, 0, 2, 2⟩ 3).maxIndex = -1 ∧
    containsB ⟨0, 0, 2, 2⟩ ⟨0, 0, 1, 1⟩ = true ∧
    overlapB ⟨0, 0, 1, 1⟩ ⟨0, 0, 2, 2⟩ = true ∧
    ((SpatialHash.create ℕ ⟨0, 0, 2, 2⟩ 3).addAll
      [(7, ⟨0, 0, 1, 1⟩)]).find ⟨0, 0, 2, 2⟩ = [] := by
  decide

open Spatial in
/-- C2 witness: both amended halves at a 64 × 64 field — grid hash with 8
divisions and quadtree with the default options — adding key 7 under
`(1, 1) 2 × 2` and querying `(0, 0) 4 × 4`. -/
theorem C2_witness :
    7 ∈ ((SpatialHash.create ℕ ⟨0, 0, 64, 64⟩ 3).addAll
      [(7, ⟨1, 1, 2, 2⟩)]).find ⟨0, 0, 4, 4⟩ ∧
    7 ∈ ((Quadtree.create ℕ ⟨0, 0, 64, 64⟩ 10 4).addAll
      [(7, ⟨1, 1, 2, 2⟩)]).find ⟨0, 0, 4, 4⟩ :=
  ⟨C2_find_no_false_negatives.1 ⟨0, 0, 64, 64⟩ 3 [(7, ⟨1, 1, 2, 2⟩)] 7
      ⟨1, 1, 2, 2⟩ ⟨0, 0, 4, 4⟩ (by decide) (by decide) (by decide)
      (by decide) (by decide) (by decide) (by decide) (by decide),
   C2_find_no_false_negatives.2 ⟨0, 0, 64, 64⟩ 10 4 [(7, ⟨1, 1, 2, 2⟩)] 7
      ⟨1, 1, 2, 2⟩ ⟨0, 0, 4, 4⟩ (by decide) (by decide) (by decide)
      (by decide) (by decide) (by decide)⟩

end Planar
